import Mathlib

/-!
# SimpleInterpreter: type checker and tree-walking interpreter

A shallow embedding of `src/typechecker.cpp` and `src/interpreter.cpp`.

* The AST node classes, `VisitorValue`, `Statement::IsReturn` and the
  `SymbolTable` class are declared in headers that are not part of the
  sources at hand; they are modelled from the specification and marked so.
* A finite C++ `double` is modelled as the rational number it holds.  The
  results of `+ - * /` are rounded to the nearest double, ties to even
  (`roundToDouble`, with the subnormal range).  Infinities, NaN and the sign of
  zero are not represented: an operation whose result is not finite ends the
  run with `Fault.notFinite` or `Fault.divByZero`.
* Undefined behaviour of the C++ code (null dereference, out-of-bounds vector
  access, integer division overflow) is made explicit as a `Fault`.
* The interpreter can loop, so it is defined with a fuel argument that every
  visit decrements; `Fault.outOfFuel` only ever means "not finished yet".
-/

namespace SimpleInterpreter

/-! ## AST -/

/-- The `Type` enumeration compared by `TypeChecker::Check` (`NUMBER`, `BOOL`, ...). -/
inductive Ty where
  | NUMBER | BOOL | VOID | FUNCTION
  deriving DecidableEq, Repr

/-- Binary operators switched on in `Interpreter::Visit(BinaryOp*)`. -/
inductive Operator where
  | PLUS | MINUS | MULTIPLY | DIVIDE | MODULO | AND | OR | GT | GTE | LT | LTE | EQ
  deriving DecidableEq, Repr

/-- Unary operators switched on in `Interpreter::Visit(UnaryOp*)`. -/
inductive UnaryOperator where
  | NOT
  deriving DecidableEq, Repr

/-- Expressions.  `BinaryOp` and `UnaryOp` carry the operator-result type that
the parser assigns at construction (`n->GetType()` in the checker). -/
inductive Exp where
  | BinaryOp (type : Ty) (op : Operator) (left right : Exp)
  | UnaryOp (type : Ty) (op : UnaryOperator) (expression : Exp)
  | Identifier (name : String)
  | FunctionCall (id : String) (arguments : List Exp)
  | Conditional (predicate trueValue falseValue : Exp)
  | NumLiteral (value : ℚ)
  | BooleanLiteral (value : Bool)

/-- Statements.  The else branch of `IfThenElse` may be absent (`nullptr`). -/
inductive Stm where
  | Assignment (lvalue : String) (rvalue : Exp)
  | Block (statements : List Stm)
  | IfThenElse (predicate : Exp) (thenStm : Stm) (elseStm : Option Stm)
  | While (predicate : Exp) (block : Stm)
  | VarDecl (id : String) (type : Ty)
  | ReturnStm (expression : Exp)

/-- Formal parameter: name and declared type. -/
structure FunctionParam where
  name : String
  type : Ty

/-- Function declaration: name, formals, declared return type, body. -/
structure FunctionDecl where
  id : String
  formals : List FunctionParam
  returnType : Ty
  statements : List Stm

/-- Program (`program.h`): the function list and the entry function. -/
structure Program where
  functions : List FunctionDecl
  main : FunctionDecl

/-- Modelled from the spec: `Statement::IsReturn` (the statement headers are
missing).  "Each statement reports structurally whether it is a return": only
a `ReturnStm` node is one. -/
def IsReturn : Stm → Bool
  | .ReturnStm _ => true
  | _ => false

/-! ## Faults -/

/-- Undefined behaviour of the C++ code, made explicit; `notFinite` and
`divByZero` on doubles are no undefined behaviour, they mark a result (an
infinity or a NaN) that the model does not represent. -/
inductive Fault where
  | nullDeref
  | outOfBounds
  | wrongTag
  | divByZero
  | overflow
  | notFinite
  | outOfFuel
  deriving DecidableEq, Repr

deriving instance DecidableEq for Except

/-! ## Scoped symbol table -/

/-- One lexical frame: an association list from names to entities. -/
abbrev Frame (α : Type) := List (String × α)

/-- A stack of frames, innermost first. -/
abbrev SymbolTable (α : Type) := List (Frame α)

/-- Modelled from the spec: `SymbolTable::EnterScope` pushes an empty frame. -/
def EnterScope {α : Type} (t : SymbolTable α) : SymbolTable α := [] :: t

/-- Modelled from the spec: `SymbolTable::LeaveScope` discards the innermost
frame with all its bindings. -/
def LeaveScope {α : Type} (t : SymbolTable α) : SymbolTable α := t.tail

/-- Modelled from the spec: `SymbolTable::Get` searches the frames
innermost-to-outermost and yields the first match, or not-found. -/
def Get {α : Type} : SymbolTable α → String → Option α
  | [], _ => none
  | f :: fs, name =>
    match f.lookup name with
    | some v => some v
    | none => Get fs name

/-- Overwrite the value bound to `name` in a frame that binds it. -/
def Frame.assign {α : Type} (name : String) (v : α) : Frame α → Frame α
  | [] => []
  | (k, w) :: rest =>
    if k == name then (k, v) :: rest else (k, w) :: Frame.assign name v rest

/-- Mutate in place the nearest enclosing binding of `name`. -/
def mutate {α : Type} (name : String) (v : α) : SymbolTable α → SymbolTable α
  | [] => []
  | f :: fs =>
    if (f.lookup name).isSome then Frame.assign name v f :: fs
    else f :: mutate name v fs

/-- Modelled from the spec: `SymbolTable::Put` "inserts into the innermost
frame if no binding for `name` exists in any frame reachable from the current
one — if an outer frame already binds `name`, the existing binding is mutated
in place". -/
def Put {α : Type} (t : SymbolTable α) (name : String) (v : α) : SymbolTable α :=
  match Get t name with
  | some _ => mutate name v t
  | none =>
    match t with
    | [] => []
    | f :: fs => ((name, v) :: f) :: fs

/-! ## Type checker (`typechecker.cpp`) -/

/-- Function signature built by `AddToFunctionTable`. -/
structure FunctionType where
  parameters : List Ty
  returnType : Ty
  deriving DecidableEq, Repr

/-- The checker's flat function table. -/
abbrev FunctionTable := List (String × FunctionType)

/-- Modelled from the spec: `SymbolTable::PutFunction` inserts the signature
into the function table under its name. -/
def PutFunction (ft : FunctionTable) (name : String) (type : FunctionType) : FunctionTable :=
  (name, type) :: ft

/-- Modelled from the spec: `SymbolTable::GetFunction` looks the name up in
the flat function table (`nullptr` when absent). -/
def GetFunction (ft : FunctionTable) (name : String) : Option FunctionType :=
  ft.lookup name

/-- The messages the checker writes: `HandleDuplicateNameDecl`,
`HandleUndefinedIdentifier`, the two branches of `Check`, and the size test of
`CheckParameterArgumentMatch`. -/
inductive Diagnostic where
  | DuplicateDeclaration (name : String)
  | UndefinedIdentifier (name : String)
  | TypeMismatch (expected received : Ty)
  | TypeNotSet
  | ArityMismatch
  deriving DecidableEq, Repr

/-- `TypeChecker::Check`: `e` is the annotation `e->GetType()` of the checked
expression (`none` when unset). -/
def Check (e : Option Ty) (type : Ty) : List Diagnostic :=
  match e with
  | none => [.TypeNotSet]
  | some t => if t ≠ type then [.TypeMismatch type t] else []

/-- The pairing loop of `CheckParameterArgumentMatch`: for `i` running over the
arguments, `Check(arguments[i], parameter_types[i])`. -/
def CheckParameterArgumentMatch.loop (parameter_types : List Ty) :
    Nat → List (Option Ty) → Except Fault (List Diagnostic)
  | _, [] => .ok []
  | i, a :: rest =>
    match parameter_types.get? i with
    | none => .error .outOfBounds
    | some p =>
      match CheckParameterArgumentMatch.loop parameter_types (i + 1) rest with
      | .error f => .error f
      | .ok ds => .ok (Check a p ++ ds)

/-- `TypeChecker::CheckParameterArgumentMatch`. -/
def CheckParameterArgumentMatch (arguments : List (Option Ty)) (parameter_types : List Ty) :
    Except Fault (List Diagnostic) :=
  let arity : List Diagnostic :=
    if arguments.length ≠ parameter_types.length then [.ArityMismatch] else []
  match CheckParameterArgumentMatch.loop parameter_types 0 arguments with
  | .error f => .error f
  | .ok ds => .ok (arity ++ ds)

/-- Result of visiting an expression: the annotation the node carries
afterwards (`none` = still unset) and the diagnostics written. -/
abbrev ExpResult := Except Fault (Option Ty × List Diagnostic)

/-- Result of visiting a statement: the symbol table afterwards and the
diagnostics written. -/
abbrev StmResult := Except Fault (SymbolTable Ty × List Diagnostic)

mutual
/-- `TypeChecker::Visit` for the expression nodes.  The function table `ft` is
only read here (it is written by `AddToFunctionTable` alone), and expression
visitors only read the symbol table. -/
def checkExp (ft : FunctionTable) (tab : SymbolTable Ty) : Exp → ExpResult
  | .Identifier name =>
    match Get tab name with
    | none => .ok (none, [.UndefinedIdentifier name])
    | some type => .ok (some type, [])
  | .BinaryOp type _ left right =>
    match checkExp ft tab left with
    | .error f => .error f
    | .ok (tl, dl) =>
      match checkExp ft tab right with
      | .error f => .error f
      | .ok (tr, dr) => .ok (some type, dl ++ dr ++ Check tl type ++ Check tr type)
  | .UnaryOp type _ expression =>
    match checkExp ft tab expression with
    | .error f => .error f
    | .ok (te, de) => .ok (some type, de ++ Check te type)
  | .FunctionCall id arguments =>
    match GetFunction ft id with
    | none => .ok (none, [.UndefinedIdentifier id])
    | some function_type =>
      match checkArgs ft tab arguments with
      | .error f => .error f
      | .ok (tys, ds) =>
        match CheckParameterArgumentMatch tys function_type.parameters with
        | .error f => .error f
        | .ok dm => .ok (some function_type.returnType, ds ++ dm)
  | .Conditional predicate true_exp false_exp =>
    match checkExp ft tab predicate with
    | .error f => .error f
    | .ok (tp, dp) =>
      match checkExp ft tab true_exp with
      | .error f => .error f
      | .ok (tt, dt) =>
        match checkExp ft tab false_exp with
        | .error f => .error f
        | .ok (none, _) => .error .nullDeref
        | .ok (some tf, df) => .ok (tt, dp ++ Check tp .BOOL ++ dt ++ df ++ Check tt tf)
  | .NumLiteral _ => .ok (some .NUMBER, [])
  | .BooleanLiteral _ => .ok (some .BOOL, [])
/-- The argument loop of `TypeChecker::Visit(FunctionCall*)`: visit every
argument in order, collecting the annotations. -/
def checkArgs (ft : FunctionTable) (tab : SymbolTable Ty) :
    List Exp → Except Fault (List (Option Ty) × List Diagnostic)
  | [] => .ok ([], [])
  | a :: rest =>
    match checkExp ft tab a with
    | .error f => .error f
    | .ok (t, d) =>
      match checkArgs ft tab rest with
      | .error f => .error f
      | .ok (ts, ds) => .ok (t :: ts, d ++ ds)
end

mutual
/-- `TypeChecker::Visit` for the statement nodes; `cur` is
`current_function_name_`. -/
def checkStm (ft : FunctionTable) (cur : String) : Stm → SymbolTable Ty → StmResult
  | .Assignment lvalue rvalue, tab =>
    match checkExp ft tab (.Identifier lvalue) with
    | .error f => .error f
    | .ok (tl, dl) =>
      match checkExp ft tab rvalue with
      | .error f => .error f
      | .ok (none, _) => .error .nullDeref
      | .ok (some tr, dr) => .ok (tab, dl ++ dr ++ Check tl tr)
  | .Block statements, tab => checkStms ft cur statements tab
  | .IfThenElse predicate thenStm elseStm, tab =>
    match checkExp ft tab predicate with
    | .error f => .error f
    | .ok (tp, dp) =>
      match checkStm ft cur thenStm tab with
      | .error f => .error f
      | .ok (tab1, d1) =>
        match checkElse ft cur elseStm tab1 with
        | .error f => .error f
        | .ok (tab2, d2) => .ok (tab2, dp ++ Check tp .BOOL ++ d1 ++ d2)
  | .While predicate block, tab =>
    match checkExp ft tab predicate with
    | .error f => .error f
    | .ok (tp, dp) =>
      match checkStm ft cur block tab with
      | .error f => .error f
      | .ok (tab1, d1) => .ok (tab1, dp ++ Check tp .BOOL ++ d1)
  | .VarDecl id type, tab =>
    match Get tab id with
    | some _ => .ok (tab, [.DuplicateDeclaration id])
    | none => .ok (Put tab id type, [])
  | .ReturnStm expression, tab =>
    match checkExp ft tab expression with
    | .error f => .error f
    | .ok (te, de) =>
      match GetFunction ft cur with
      | none => .error .nullDeref
      | some function_type => .ok (tab, de ++ Check te function_type.returnType)
/-- The line `if (els != nullptr) els->Accept(this);` of `Visit(IfThenElse*)`. -/
def checkElse (ft : FunctionTable) (cur : String) : Option Stm → SymbolTable Ty → StmResult
  | none, tab => .ok (tab, [])
  | some els, tab => checkStm ft cur els tab
/-- The statement loop shared by `Visit(Block*)` and `Visit(FunctionDecl*)`. -/
def checkStms (ft : FunctionTable) (cur : String) : List Stm → SymbolTable Ty → StmResult
  | [], tab => .ok (tab, [])
  | s :: rest, tab =>
    match checkStm ft cur s tab with
    | .error f => .error f
    | .ok (tab1, d1) =>
      match checkStms ft cur rest tab1 with
      | .error f => .error f
      | .ok (tab2, d2) => .ok (tab2, d1 ++ d2)
end

/-- `TypeChecker::AddToFunctionTable`. -/
def AddToFunctionTable (ft : FunctionTable) (n : FunctionDecl) : FunctionTable :=
  PutFunction ft n.id ⟨n.formals.map (·.type), n.returnType⟩

/-- `TypeChecker::Visit(FunctionDecl*)`. -/
def checkFunctionDecl (ft : FunctionTable) (n : FunctionDecl) (tab : SymbolTable Ty) : StmResult :=
  checkStms ft n.id n.statements tab

/-- The loop "Typecheck functions" of `TypeChecker::Visit(Program*)`. -/
def checkFunctions (ft : FunctionTable) : List FunctionDecl → SymbolTable Ty → StmResult
  | [], tab => .ok (tab, [])
  | fun_decl :: rest, tab =>
    match checkFunctionDecl ft fun_decl (EnterScope tab) with
    | .error f => .error f
    | .ok (tab1, d1) =>
      match checkFunctions ft rest (LeaveScope tab1) with
      | .error f => .error f
      | .ok (tab2, d2) => .ok (tab2, d1 ++ d2)

/-- The registration pass of `TypeChecker::Visit(Program*)`: every function of
the list, then the entry function. -/
def buildFunctionTable (ft : FunctionTable) (n : Program) : FunctionTable :=
  AddToFunctionTable (n.functions.foldl AddToFunctionTable ft) n.main

/-- State of a `TypeChecker` object: its `symbolTable_` (scoped part and
function part). -/
structure TypeChecker where
  symbolTable_ : SymbolTable Ty
  functions_ : FunctionTable

/-- `TypeChecker::Visit(Program*)`. -/
def checkProgram (tc : TypeChecker) (n : Program) : Except Fault (TypeChecker × List Diagnostic) :=
  let ft := buildFunctionTable tc.functions_ n
  match checkFunctions ft n.functions tc.symbolTable_ with
  | .error f => .error f
  | .ok (tab1, d1) =>
    match checkFunctionDecl ft n.main (EnterScope tab1) with
    | .error f => .error f
    | .ok (tab2, d2) => .ok (⟨LeaveScope tab2, ft⟩, d1 ++ d2)

/-- The checked program handed to the interpreter: the program and the
checker's symbol table. -/
structure CheckedProgram where
  program : Program
  symbolTable : SymbolTable Ty

/-- `TypeChecker::TypeCheck` on a checker object in state `tc`; the diagnostics
written are returned alongside. -/
def TypeCheck (tc : TypeChecker) (program : Program) :
    Except Fault (CheckedProgram × List Diagnostic) :=
  match checkProgram tc program with
  | .error f => .error f
  | .ok (tc1, ds) => .ok (⟨program, tc1.symbolTable_⟩, ds)

/-- A freshly constructed checker. -/
def TypeChecker.fresh : TypeChecker := ⟨[], []⟩

/-! ## Interpreter (`interpreter.cpp`) -/

/-- Modelled from the spec: the tagged runtime value `VisitorValue` (its header
is missing): a number, a boolean, or the no-value built by
`VisitorValue(nullptr)`. -/
inductive VisitorValue where
  | number (d : ℚ)
  | boolean (b : Bool)
  | null
  deriving DecidableEq

/-- Reading `.double_value`; reading it from a value of another tag is not
defined by the sources and is treated as a fault. -/
def VisitorValue.double_value : VisitorValue → Except Fault ℚ
  | .number d => .ok d
  | _ => .error .wrongTag

/-- Reading `.bool_value`; same convention as `double_value`. -/
def VisitorValue.bool_value : VisitorValue → Except Fault Bool
  | .boolean b => .ok b
  | _ => .error .wrongTag

/-- Smallest value of a `long` (64 bits, as on LP64 platforms). -/
def LONG_MIN : Int := -9223372036854775808

/-- Largest value of a `long` (64 bits, as on LP64 platforms). -/
def LONG_MAX : Int := 9223372036854775807

/-- Discard the fractional part of a rational, toward zero. -/
def trunc (d : ℚ) : Int := if 0 ≤ d then ⌊d⌋ else ⌈d⌉

/-- The conversion `(long) d`: truncation toward zero, undefined when the
truncated value is not representable. -/
def toLong (d : ℚ) : Except Fault Int :=
  if LONG_MIN ≤ trunc d ∧ trunc d ≤ LONG_MAX then .ok (trunc d) else .error .overflow

/-- The C++ `a % b` on `long`: remainder of the division truncated toward zero;
undefined for `b = 0` and when the quotient `a / b` overflows. -/
def longMod (a b : Int) : Except Fault Int :=
  if b = 0 then .error .divByZero
  else if a = LONG_MIN ∧ b = -1 then .error .overflow
  else .ok (Int.tmod a b)

/-- Number of binary digits of `n`, found by halving at most `fuel` times. -/
def bitLength : Nat → Nat → Nat
  | 0, _ => 0
  | fuel + 1, n => if n = 0 then 0 else bitLength fuel (n / 2) + 1

/-- The binary logarithm of a positive natural number, rounded down. -/
def log2Floor (n : Nat) : Nat := bitLength n n - 1

/-- Round to the nearest integer, ties to the even one. -/
def roundHalfEven (r : ℚ) : Int :=
  if r - ⌊r⌋ < 1 / 2 then ⌊r⌋
  else if 1 / 2 < r - ⌊r⌋ then ⌊r⌋ + 1
  else if ⌊r⌋ % 2 = 0 then ⌊r⌋ else ⌊r⌋ + 1

/-- The binary exponent of a positive rational `q`: the `e` with
`2 ^ e ≤ q < 2 ^ (e + 1)`. -/
def binaryExponent (q : ℚ) : Int :=
  if (2 : ℚ) ^ ((log2Floor q.num.natAbs : Int) - (log2Floor q.den : Int)) ≤ q
  then (log2Floor q.num.natAbs : Int) - (log2Floor q.den : Int)
  else (log2Floor q.num.natAbs : Int) - (log2Floor q.den : Int) - 1

/-- The exponent of the unit in the last place of the double nearest to `q`: 53
significant bits, and never below the smallest subnormal `2 ^ -1074`. -/
def ulpExponent (q : ℚ) : Int := max (binaryExponent |q| - 52) (-1074)

/-- The value of a `double` operation whose exact result is `q`: `q` rounded to
the nearest double, ties to even; a result that rounds beyond the largest
double is an infinity in C++ and `Fault.notFinite` here. -/
def roundToDouble (q : ℚ) : Except Fault ℚ :=
  if q = 0 then .ok 0
  else if |(roundHalfEven (q / (2 : ℚ) ^ ulpExponent q) : ℚ) * (2 : ℚ) ^ ulpExponent q|
      < (2 : ℚ) ^ (1024 : Int)
  then .ok ((roundHalfEven (q / (2 : ℚ) ^ ulpExponent q) : ℚ) * (2 : ℚ) ^ ulpExponent q)
  else .error .notFinite

/-- The rational `q` is the value of a finite `double`: rounding leaves it as it
is. -/
def IsDouble (q : ℚ) : Prop := roundToDouble q = .ok q

instance (q : ℚ) : Decidable (IsDouble q) := by
  unfold IsDouble
  infer_instance

/-- The `switch` of `Interpreter::Visit(BinaryOp*)` on the two operand values. -/
def evalBinaryOp (op : Operator) (left right : VisitorValue) : Except Fault VisitorValue :=
  match op with
  | .PLUS => do
    let l ← left.double_value
    let r ← right.double_value
    let d ← roundToDouble (l + r)
    pure (.number d)
  | .MINUS => do
    let l ← left.double_value
    let r ← right.double_value
    let d ← roundToDouble (l - r)
    pure (.number d)
  | .MULTIPLY => do
    let l ← left.double_value
    let r ← right.double_value
    let d ← roundToDouble (l * r)
    pure (.number d)
  | .DIVIDE => do
    let l ← left.double_value
    let r ← right.double_value
    if r = 0 then .error .divByZero
    else do
      let d ← roundToDouble (l / r)
      pure (.number d)
  | .MODULO => do
    let l ← left.double_value
    let a ← toLong l
    let r ← right.double_value
    let b ← toLong r
    let m ← longMod a b
    pure (.number (m : ℚ))
  | .AND => do
    let l ← left.bool_value
    if l then do
      let r ← right.bool_value
      pure (.boolean r)
    else pure (.boolean false)
  | .OR => do
    let l ← left.bool_value
    if l then pure (.boolean true)
    else do
      let r ← right.bool_value
      pure (.boolean r)
  | .GT => do
    let l ← left.double_value
    let r ← right.double_value
    pure (.boolean (decide (l > r)))
  | .GTE => do
    let l ← left.double_value
    let r ← right.double_value
    pure (.boolean (decide (l ≥ r)))
  | .LT => do
    let l ← left.double_value
    let r ← right.double_value
    pure (.boolean (decide (l < r)))
  | .LTE => do
    let l ← left.double_value
    let r ← right.double_value
    pure (.boolean (decide (l ≤ r)))
  | .EQ => do
    let l ← left.double_value
    let r ← right.double_value
    pure (.boolean (decide (l = r)))

/-- The `switch` of `Interpreter::Visit(UnaryOp*)`. -/
def evalUnaryOp (op : UnaryOperator) (value : VisitorValue) : Except Fault VisitorValue :=
  match op with
  | .NOT => do
    let b ← value.bool_value
    pure (.boolean (!b))

/-- State of an `Interpreter` object: the member fields used by
`interpreter.cpp`. -/
structure Interpreter where
  function_table_ : List (String × FunctionDecl)
  evaluation_table_ : SymbolTable VisitorValue
  is_return_ : Bool

/-- Result of a visit: the value returned and the interpreter state after. -/
abbrev Visited := Except Fault (VisitorValue × Interpreter)

/-- `function_table_.insert(\x7bname, fun\x7d)`: `insert` on a map leaves an entry
that is already present untouched. -/
def insertFunction (table : List (String × FunctionDecl)) (fn : FunctionDecl) :
    List (String × FunctionDecl) :=
  match table.lookup fn.id with
  | some _ => table
  | none => table ++ [(fn.id, fn)]

mutual
/-- `Interpreter::Visit` for the expression nodes. -/
def visitExp : Nat → Exp → Interpreter → Visited
  | 0, _, _ => .error .outOfFuel
  | _ + 1, .NumLiteral value, s => .ok (.number value, s)
  | _ + 1, .BooleanLiteral value, s => .ok (.boolean value, s)
  | _ + 1, .Identifier name, s =>
    match Get s.evaluation_table_ name with
    | some v => .ok (v, s)
    | none => .ok (.null, s)
  | fuel + 1, .BinaryOp _ op left right, s =>
    match visitExp fuel left s with
    | .error f => .error f
    | .ok (l, s1) =>
      match visitExp fuel right s1 with
      | .error f => .error f
      | .ok (r, s2) =>
        match evalBinaryOp op l r with
        | .error f => .error f
        | .ok v => .ok (v, s2)
  | fuel + 1, .UnaryOp _ op expression, s =>
    match visitExp fuel expression s with
    | .error f => .error f
    | .ok (value, s1) =>
      match evalUnaryOp op value with
      | .error f => .error f
      | .ok v => .ok (v, s1)
  | fuel + 1, .Conditional predicate trueValue falseValue, s =>
    match visitExp fuel predicate s with
    | .error f => .error f
    | .ok (p, s1) =>
      match p.bool_value with
      | .error f => .error f
      | .ok true => visitExp fuel trueValue s1
      | .ok false => visitExp fuel falseValue s1
  | fuel + 1, .FunctionCall id arguments, s =>
    match s.function_table_.lookup id with
    | none => .error .nullDeref
    | some fn =>
      match bindArguments fuel arguments 0 fn.formals
          { s with evaluation_table_ := EnterScope s.evaluation_table_ } with
      | .error f => .error f
      | .ok s1 =>
        match visitFunctionDecl fuel fn s1 with
        | .error f => .error f
        | .ok (call_value, s2) =>
          .ok (call_value, { s2 with evaluation_table_ := LeaveScope s2.evaluation_table_ })
/-- The loop "Map Arguments to Parameters" of `Interpreter::Visit(FunctionCall*)`:
the remaining arguments, the index `i` of the first of them, the formals. -/
def bindArguments : Nat → List Exp → Nat → List FunctionParam → Interpreter →
    Except Fault Interpreter
  | 0, _, _, _, _ => .error .outOfFuel
  | _ + 1, [], _, _, s => .ok s
  | fuel + 1, arg :: rest, i, parameters, s =>
    match parameters.get? i with
    | none => .error .outOfBounds
    | some param =>
      match visitExp fuel arg s with
      | .error f => .error f
      | .ok (v, s1) =>
        bindArguments fuel rest (i + 1) parameters
          { s1 with evaluation_table_ := Put s1.evaluation_table_ param.name v }
/-- `Interpreter::Visit` for the statement nodes. -/
def visitStm : Nat → Stm → Interpreter → Visited
  | 0, _, _ => .error .outOfFuel
  | fuel + 1, .Assignment name rvalue, s =>
    match visitExp fuel rvalue s with
    | .error f => .error f
    | .ok (value, s1) =>
      .ok (.null, { s1 with evaluation_table_ := Put s1.evaluation_table_ name value })
  | fuel + 1, .Block statements, s => visitStatements fuel statements s
  | fuel + 1, .IfThenElse predicate thenStm elseStm, s =>
    match visitExp fuel predicate s with
    | .error f => .error f
    | .ok (p, s1) =>
      match p.bool_value with
      | .error f => .error f
      | .ok true => visitStm fuel thenStm s1
      | .ok false =>
        match elseStm with
        | none => .error .nullDeref
        | some els => visitStm fuel els s1
  | fuel + 1, .While predicate block, s => visitWhile fuel predicate block s
  | _ + 1, .VarDecl id _, s =>
    .ok (.null, { s with evaluation_table_ := Put s.evaluation_table_ id (.number 0) })
  | fuel + 1, .ReturnStm expression, s => visitExp fuel expression s
/-- The loop of `Interpreter::Visit(While*)`. -/
def visitWhile : Nat → Exp → Stm → Interpreter → Visited
  | 0, _, _, _ => .error .outOfFuel
  | fuel + 1, predicate, block, s =>
    match visitExp fuel predicate s with
    | .error f => .error f
    | .ok (p, s1) =>
      match p.bool_value with
      | .error f => .error f
      | .ok false => .ok (.null, s1)
      | .ok true =>
        match visitStm fuel block s1 with
        | .error f => .error f
        | .ok (value, s2) =>
          if s2.is_return_ then .ok (value, s2)
          else visitWhile fuel predicate block s2
/-- The statement loop shared by `Visit(Block*)` and `Visit(FunctionDecl*)`:
run each statement, return its value if the statement `IsReturn()`. -/
def visitStatements : Nat → List Stm → Interpreter → Visited
  | 0, _, _ => .error .outOfFuel
  | _ + 1, [], s => .ok (.null, s)
  | fuel + 1, stm :: rest, s =>
    match visitStm fuel stm s with
    | .error f => .error f
    | .ok (value, s1) =>
      if IsReturn stm then .ok (value, s1)
      else visitStatements fuel rest s1
/-- `Interpreter::Visit(FunctionDecl*)`. -/
def visitFunctionDecl : Nat → FunctionDecl → Interpreter → Visited
  | 0, _, _ => .error .outOfFuel
  | fuel + 1, n, s => visitStatements fuel n.statements { s with is_return_ := false }
end

/-- `Interpreter::Visit(Program*)`. -/
def visitProgram (fuel : Nat) (n : Program) (s : Interpreter) : Visited :=
  visitFunctionDecl fuel n.main
    { s with function_table_ := n.functions.foldl insertFunction s.function_table_ }

/-- `Interpreter::Evaluate`: the number returned and the state in which the
interpreter object is left. -/
def Evaluate (fuel : Nat) (s : Interpreter) (checked_program : CheckedProgram) :
    Except Fault (ℚ × Interpreter) :=
  match visitProgram fuel checked_program.program
      { s with evaluation_table_ := EnterScope s.evaluation_table_ } with
  | .error f => .error f
  | .ok (main_value, s1) =>
    match main_value.double_value with
    | .error f => .error f
    | .ok d => .ok (d, { s1 with evaluation_table_ := LeaveScope s1.evaluation_table_ })

/-- A freshly constructed interpreter: empty tables.  The initial value of
`is_return_` is a parameter, since the declaration is not in the sources. -/
def Interpreter.fresh (is_return : Bool) : Interpreter := ⟨[], [], is_return⟩

/-- The number an evaluation returns, without the final state. -/
def Evaluate.result (fuel : Nat) (s : Interpreter) (p : Program) : Except Fault ℚ :=
  match Evaluate fuel s ⟨p, []⟩ with
  | .error f => .error f
  | .ok (d, _) => .ok d

/-! ## Programs and predicates used in the theorems -/

/-- The program `main(): number { var x: number; x = 3;
while (x > 0) { x = x - 1; return 7; } return x; }`. -/
def whileReturnProgram : Program :=
  { functions := []
    main :=
      { id := "main", formals := [], returnType := .NUMBER
        statements :=
          [ .VarDecl "x" .NUMBER,
            .Assignment "x" (.NumLiteral 3),
            .While (.BinaryOp .BOOL .GT (.Identifier "x") (.NumLiteral 0))
              (.Block
                [ .Assignment "x" (.BinaryOp .NUMBER .MINUS (.Identifier "x") (.NumLiteral 1)),
                  .ReturnStm (.NumLiteral 7) ]),
            .ReturnStm (.Identifier "x") ] } }

/-- The program `main(): number { if (true) { return 1; } else { return 3; }
return 2; }`. -/
def ifReturnProgram : Program :=
  { functions := []
    main :=
      { id := "main", formals := [], returnType := .NUMBER
        statements :=
          [ .IfThenElse (.BooleanLiteral true)
              (.Block [.ReturnStm (.NumLiteral 1)])
              (some (.Block [.ReturnStm (.NumLiteral 3)])),
            .ReturnStm (.NumLiteral 2) ] } }

/-- The program `f(n: number): number { return 0; }
main(): number { var n: number; n = 5; var r: number; r = f(1); return n; }`:
the callee never assigns to `n`. -/
def clobberProgram : Program :=
  { functions :=
      [ { id := "f", formals := [⟨"n", .NUMBER⟩], returnType := .NUMBER
          statements := [.ReturnStm (.NumLiteral 0)] } ]
    main :=
      { id := "main", formals := [], returnType := .NUMBER
        statements :=
          [ .VarDecl "n" .NUMBER,
            .Assignment "n" (.NumLiteral 5),
            .VarDecl "r" .NUMBER,
            .Assignment "r" (.FunctionCall "f" [.NumLiteral 1]),
            .ReturnStm (.Identifier "n") ] } }

/-- The function `f(a: number, b: number): number { return b; }`. -/
def secondOfTwo : FunctionDecl :=
  { id := "f", formals := [⟨"a", .NUMBER⟩, ⟨"b", .NUMBER⟩], returnType := .NUMBER
    statements := [.ReturnStm (.Identifier "b")] }

/-- The program `f(a, b) { return b; }
main(): number { var a: number; a = 5; return f(1, a); }`. -/
def argumentOrderProgram : Program :=
  { functions := [secondOfTwo]
    main :=
      { id := "main", formals := [], returnType := .NUMBER
        statements :=
          [ .VarDecl "a" .NUMBER,
            .Assignment "a" (.NumLiteral 5),
            .ReturnStm (.FunctionCall "f" [.NumLiteral 1, .Identifier "a"]) ] } }

/-- The program `f(a, b) { return b; } main(): number { return f(1, a); }`, whose
caller binds no `a` at all. -/
def argumentOrderUnboundProgram : Program :=
  { functions := [secondOfTwo]
    main :=
      { id := "main", formals := [], returnType := .NUMBER
        statements := [ .ReturnStm (.FunctionCall "f" [.NumLiteral 1, .Identifier "a"]) ] } }

/-- The program `f(): number { return k; } main(): number { return f(); }`. -/
def constantProgram (k : ℚ) : Program :=
  { functions :=
      [ { id := "f", formals := [], returnType := .NUMBER
          statements := [.ReturnStm (.NumLiteral k)] } ]
    main :=
      { id := "main", formals := [], returnType := .NUMBER
        statements := [ .ReturnStm (.FunctionCall "f" []) ] } }

/-- `Evaluate(Q)` on the interpreter object left behind by `Evaluate(P)`. -/
def evaluateAfter (fuel : Nat) (s : Interpreter) (P Q : Program) : Except Fault ℚ :=
  match Evaluate fuel s ⟨P, []⟩ with
  | .error f => .error f
  | .ok (_, s1) => Evaluate.result fuel s1 Q

/-- The program `main(): number { var x: number; x = y; return x; }`: `y` is
declared nowhere. -/
def undefinedRhsProgram : Program :=
  { functions := []
    main :=
      { id := "main", formals := [], returnType := .NUMBER
        statements :=
          [ .VarDecl "x" .NUMBER,
            .Assignment "x" (.Identifier "y"),
            .ReturnStm (.Identifier "x") ] } }

/-- The program `main(): number { return true ? 1 : y; }`: `y` is declared
nowhere. -/
def undefinedFalseBranchProgram : Program :=
  { functions := []
    main :=
      { id := "main", formals := [], returnType := .NUMBER
        statements :=
          [ .ReturnStm (.Conditional (.BooleanLiteral true) (.NumLiteral 1) (.Identifier "y")) ] } }

/-- The program `f(a: number): number { return 0; }
main(): number { return f(1, 2); }`: two arguments for one parameter. -/
def tooManyArgumentsProgram : Program :=
  { functions :=
      [ { id := "f", formals := [⟨"a", .NUMBER⟩], returnType := .NUMBER
          statements := [.ReturnStm (.NumLiteral 0)] } ]
    main :=
      { id := "main", formals := [], returnType := .NUMBER
        statements := [ .ReturnStm (.FunctionCall "f" [.NumLiteral 1, .NumLiteral 2]) ] } }

/-- The diagnostics of a check, or the fault that stopped it. -/
def TypeCheck.diagnostics (tc : TypeChecker) (p : Program) : Except Fault (List Diagnostic) :=
  match TypeCheck tc p with
  | .error f => .error f
  | .ok (_, ds) => .ok ds

/-- Follows the spec's words for `%`: with both operands truncated toward zero,
`r = trunc(a) - trunc(b) * trunc(trunc(a) / trunc(b))`. -/
def moduloSpec (a b : ℚ) : Int :=
  trunc a - trunc b * trunc ((trunc a : ℚ) / (trunc b : ℚ))

/-- The statement `if (true) { var x: number; }`, without else branch. -/
def declareInBranch : Stm :=
  .IfThenElse (.BooleanLiteral true) (.Block [.VarDecl "x" .NUMBER]) none

/-- The first table grows into the second: an open scope stays open and every
binding is kept. -/
def Grows (tab tab' : SymbolTable Ty) : Prop :=
  (tab ≠ [] → tab' ≠ []) ∧ ∀ y w, Get tab y = some w → Get tab' y = some w

/-- A run that the fuel did not cut short. -/
def Finished {α : Type} (r : Except Fault α) : Prop := r ≠ .error .outOfFuel

/-- One more unit of fuel does not change any finished run of the six visits. -/
def FuelStable (fuel : Nat) : Prop :=
  (∀ e s, Finished (visitExp fuel e s) → visitExp (fuel + 1) e s = visitExp fuel e s)
  ∧ (∀ args i ps s, Finished (bindArguments fuel args i ps s) →
      bindArguments (fuel + 1) args i ps s = bindArguments fuel args i ps s)
  ∧ (∀ stm s, Finished (visitStm fuel stm s) → visitStm (fuel + 1) stm s = visitStm fuel stm s)
  ∧ (∀ p b s, Finished (visitWhile fuel p b s) →
      visitWhile (fuel + 1) p b s = visitWhile fuel p b s)
  ∧ (∀ stms s, Finished (visitStatements fuel stms s) →
      visitStatements (fuel + 1) stms s = visitStatements fuel stms s)
  ∧ (∀ n s, Finished (visitFunctionDecl fuel n s) →
      visitFunctionDecl (fuel + 1) n s = visitFunctionDecl fuel n s)

/-- No visit raises `is_return_`: a visit that starts with the flag down ends
with the flag down, and `Visit(FunctionDecl*)` always ends with it down. -/
def FlagDown (fuel : Nat) : Prop :=
  (∀ e s v s', visitExp fuel e s = .ok (v, s') → s.is_return_ = false → s'.is_return_ = false)
  ∧ (∀ args i ps s s', bindArguments fuel args i ps s = .ok s' →
      s.is_return_ = false → s'.is_return_ = false)
  ∧ (∀ stm s v s', visitStm fuel stm s = .ok (v, s') →
      s.is_return_ = false → s'.is_return_ = false)
  ∧ (∀ p b s v s', visitWhile fuel p b s = .ok (v, s') →
      s.is_return_ = false → s'.is_return_ = false)
  ∧ (∀ stms s v s', visitStatements fuel stms s = .ok (v, s') →
      s.is_return_ = false → s'.is_return_ = false)
  ∧ (∀ n s v s', visitFunctionDecl fuel n s = .ok (v, s') → s'.is_return_ = false)

/-- The program `add(a: number, b: number): number { return a + b; }
main(): number { return add(u, v); }`. -/
def addProgram (u v : ℚ) : Program :=
  { functions :=
      [ { id := "add", formals := [⟨"a", .NUMBER⟩, ⟨"b", .NUMBER⟩], returnType := .NUMBER
          statements :=
            [.ReturnStm (.BinaryOp .NUMBER .PLUS (.Identifier "a") (.Identifier "b"))] } ]
    main :=
      { id := "main", formals := [], returnType := .NUMBER
        statements := [ .ReturnStm (.FunctionCall "add" [.NumLiteral u, .NumLiteral v]) ] } }

/-- The program `f(): number { var x: number; return 0; }
main(): number { var x: number; x = 5; var r: number; r = f(); return x; }`: the
callee declares its own `x`. -/
def declareInCalleeProgram : Program :=
  { functions :=
      [ { id := "f", formals := [], returnType := .NUMBER
          statements := [.VarDecl "x" .NUMBER, .ReturnStm (.NumLiteral 0)] } ]
    main :=
      { id := "main", formals := [], returnType := .NUMBER
        statements :=
          [ .VarDecl "x" .NUMBER,
            .Assignment "x" (.NumLiteral 5),
            .VarDecl "r" .NUMBER,
            .Assignment "r" (.FunctionCall "f" []),
            .ReturnStm (.Identifier "x") ] } }

/-- The program `main(): number { if (false) { return 1; } return 2; }`: an
IfThenElse without else branch. -/
def ifWithoutElseProgram : Program :=
  { functions := []
    main :=
      { id := "main", formals := [], returnType := .NUMBER
        statements :=
          [ .IfThenElse (.BooleanLiteral false) (.Block [.ReturnStm (.NumLiteral 1)]) none,
            .ReturnStm (.NumLiteral 2) ] } }

/-- The program `main(): number { return main(); }`: the entry function calls
itself. -/
def selfCallProgram : Program :=
  { functions := []
    main :=
      { id := "main", formals := [], returnType := .NUMBER
        statements := [ .ReturnStm (.FunctionCall "main" []) ] } }

/-- The runtime function table in which `Visit(Program*)` runs the entry
function. -/
def runtimeFunctionTable (s : Interpreter) (n : Program) : List (String × FunctionDecl) :=
  n.functions.foldl insertFunction s.function_table_

/-- The loop predicate `x > 0`. -/
def countdownPredicate : Exp := .BinaryOp .BOOL .GT (.Identifier "x") (.NumLiteral 0)

/-- The loop body `{ x = x - 1; }`. -/
def countdownBlock : Stm :=
  .Block [.Assignment "x" (.BinaryOp .NUMBER .MINUS (.Identifier "x") (.NumLiteral 1))]

/-- The program `main(): number { var x: number; x = n;
while (x > 0) { x = x - 1; } return x; }`. -/
def countdownProgram (n : Nat) : Program :=
  { functions := []
    main :=
      { id := "main", formals := [], returnType := .NUMBER
        statements :=
          [ .VarDecl "x" .NUMBER,
            .Assignment "x" (.NumLiteral n),
            .While countdownPredicate countdownBlock,
            .ReturnStm (.Identifier "x") ] } }

/-- The loop of `Interpreter::Visit(While*)` with a counter: the result of
`visitWhile` together with the number of times the block was executed. -/
def countWhile : Nat → Exp → Stm → Interpreter → Except Fault ((VisitorValue × Interpreter) × Nat)
  | 0, _, _, _ => .error .outOfFuel
  | fuel + 1, predicate, block, s =>
    match visitExp fuel predicate s with
    | .error f => .error f
    | .ok (p, s1) =>
      match p.bool_value with
      | .error f => .error f
      | .ok false => .ok ((.null, s1), 0)
      | .ok true =>
        match visitStm fuel block s1 with
        | .error f => .error f
        | .ok (value, s2) =>
          if s2.is_return_ then .ok ((value, s2), 1)
          else
            match countWhile fuel predicate block s2 with
            | .error f => .error f
            | .ok (r, c) => .ok (r, c + 1)

/-- The state of `countdownProgram` when `x` holds `m`. -/
def countdownState (m : Nat) : Interpreter := ⟨[], [[("x", .number m)]], false⟩

/-- `Visit` of one statement of a function body, with the number of times the
block was executed when the statement is a `While` (0 for any other
statement). -/
def countStm : Nat → Stm → Interpreter → Except Fault ((VisitorValue × Interpreter) × Nat)
  | fuel + 1, .While predicate block, s => countWhile fuel predicate block s
  | fuel, stm, s => (visitStm fuel stm s).map (fun r => (r, 0))

/-- The statement loop of `Interpreter::Visit(FunctionDecl*)` with the number of
executions of the blocks of the While statements it runs. -/
def countStatements : Nat → List Stm → Interpreter →
    Except Fault ((VisitorValue × Interpreter) × Nat)
  | 0, _, _ => .error .outOfFuel
  | _ + 1, [], s => .ok ((.null, s), 0)
  | fuel + 1, stm :: rest, s =>
    match countStm fuel stm s with
    | .error f => .error f
    | .ok ((value, s1), c) =>
      if IsReturn stm then .ok ((value, s1), c)
      else
        match countStatements fuel rest s1 with
        | .error f => .error f
        | .ok (r, c') => .ok (r, c + c')

/-- `Interpreter::Evaluate` with a counter: the result of `Evaluate` together
with the number of times the blocks of the While statements of the entry
function's body were executed in that run. -/
def EvaluateCounting (fuel : Nat) (s : Interpreter) (checked_program : CheckedProgram) :
    Except Fault ((ℚ × Interpreter) × Nat) :=
  match fuel with
  | 0 => .error .outOfFuel
  | fuel + 1 =>
    match countStatements fuel checked_program.program.main.statements
        { function_table_ :=
            checked_program.program.functions.foldl insertFunction s.function_table_,
          evaluation_table_ := EnterScope s.evaluation_table_,
          is_return_ := false } with
    | .error f => .error f
    | .ok ((main_value, s1), c) =>
      match main_value.double_value with
      | .error f => .error f
      | .ok d => .ok ((d, { s1 with evaluation_table_ := LeaveScope s1.evaluation_table_ }), c)

/-- The names bound in each frame of a table, innermost frame first. -/
def boundNames {α : Type} (t : SymbolTable α) : List (List String) :=
  t.map (fun f => f.map Prod.fst)

/-- The second table has the frames of the first below the innermost one: as
many frames, and beneath the innermost frame the same names in every frame. -/
def SameBelow (t t' : SymbolTable VisitorValue) : Prop :=
  t'.length = t.length ∧ (boundNames t').tail = (boundNames t).tail

/-- Frames are kept by every visit: an expression leaves every frame with the
names it had; a statement, a loop, a statement list, a function body and the
binding of arguments leave the frames beneath the innermost one so. -/
def FramesKept (fuel : Nat) : Prop :=
  (∀ e s v s', visitExp fuel e s = .ok (v, s') →
      boundNames s'.evaluation_table_ = boundNames s.evaluation_table_)
  ∧ (∀ args i ps s s', bindArguments fuel args i ps s = .ok s' →
      SameBelow s.evaluation_table_ s'.evaluation_table_)
  ∧ (∀ stm s v s', visitStm fuel stm s = .ok (v, s') →
      SameBelow s.evaluation_table_ s'.evaluation_table_)
  ∧ (∀ p b s v s', visitWhile fuel p b s = .ok (v, s') →
      SameBelow s.evaluation_table_ s'.evaluation_table_)
  ∧ (∀ stms s v s', visitStatements fuel stms s = .ok (v, s') →
      SameBelow s.evaluation_table_ s'.evaluation_table_)
  ∧ (∀ n s v s', visitFunctionDecl fuel n s = .ok (v, s') →
      SameBelow s.evaluation_table_ s'.evaluation_table_)

/-- An interpreter state in which `f(p: number)` has the given body and the
caller's frame binds `x` to 5. -/
def callState (body : List Stm) : Interpreter :=
  ⟨[("f", ⟨"f", [⟨"p", .NUMBER⟩], .NUMBER, body⟩)], [[("x", .number 5)]], false⟩

theorem not_finished {α : Type} {r : Except Fault α} (h : ¬ Finished r) :
    r = .error .outOfFuel := by
  unfold Finished at h
  exact not_not.mp h

theorem visitExp_stable (fuel : Nat) (ih : FuelStable fuel) (e : Exp) (s : Interpreter)
    (hfin : Finished (visitExp (fuel + 1) e s)) :
    visitExp (fuel + 2) e s = visitExp (fuel + 1) e s := by
  obtain ⟨ihE, ihB, _, _, _, ihF⟩ := ih
  cases e with
  | NumLiteral v => simp [visitExp]
  | BooleanLiteral v => simp [visitExp]
  | Identifier name => simp [visitExp]
  | BinaryOp ty op l r =>
    simp only [visitExp] at hfin ⊢
    by_cases h1 : Finished (visitExp fuel l s)
    · rw [ihE l s h1]
      cases hl : visitExp fuel l s with
      | error f => rfl
      | ok v1 =>
        obtain ⟨lv, s1⟩ := v1
        rw [hl] at hfin
        simp only at hfin ⊢
        by_cases h2 : Finished (visitExp fuel r s1)
        · rw [ihE r s1 h2]
        · rw [not_finished h2] at hfin
          exact absurd rfl hfin
    · rw [not_finished h1] at hfin
      exact absurd rfl hfin
  | UnaryOp ty op x =>
    simp only [visitExp] at hfin ⊢
    by_cases h1 : Finished (visitExp fuel x s)
    · rw [ihE x s h1]
    · rw [not_finished h1] at hfin
      exact absurd rfl hfin
  | Conditional p t f =>
    simp only [visitExp] at hfin ⊢
    by_cases h1 : Finished (visitExp fuel p s)
    · rw [ihE p s h1]
      cases hp : visitExp fuel p s with
      | error f => rfl
      | ok v1 =>
        obtain ⟨pv, s1⟩ := v1
        rw [hp] at hfin
        simp only at hfin ⊢
        cases hb : pv.bool_value with
        | error f => rfl
        | ok b =>
          rw [hb] at hfin
          cases b with
          | true => exact ihE t s1 hfin
          | false => exact ihE f s1 hfin
    · rw [not_finished h1] at hfin
      exact absurd rfl hfin
  | FunctionCall id args =>
    simp only [visitExp] at hfin ⊢
    cases hfn : s.function_table_.lookup id with
    | none => rfl
    | some fn =>
      rw [hfn] at hfin
      simp only at hfin ⊢
      by_cases h1 : Finished (bindArguments fuel args 0 fn.formals
          { s with evaluation_table_ := EnterScope s.evaluation_table_ })
      · rw [ihB _ _ _ _ h1]
        cases hb : bindArguments fuel args 0 fn.formals
            { s with evaluation_table_ := EnterScope s.evaluation_table_ } with
        | error f => rfl
        | ok s1 =>
          rw [hb] at hfin
          simp only at hfin ⊢
          by_cases h2 : Finished (visitFunctionDecl fuel fn s1)
          · rw [ihF fn s1 h2]
          · rw [not_finished h2] at hfin
            exact absurd rfl hfin
      · rw [not_finished h1] at hfin
        exact absurd rfl hfin

theorem bindArguments_stable (fuel : Nat) (ih : FuelStable fuel) (args : List Exp) (i : Nat)
    (ps : List FunctionParam) (s : Interpreter)
    (hfin : Finished (bindArguments (fuel + 1) args i ps s)) :
    bindArguments (fuel + 2) args i ps s = bindArguments (fuel + 1) args i ps s := by
  obtain ⟨ihE, ihB, _, _, _, _⟩ := ih
  cases args with
  | nil => simp [bindArguments]
  | cons arg rest =>
    simp only [bindArguments] at hfin ⊢
    cases hp : ps.get? i with
    | none => rfl
    | some param =>
      rw [hp] at hfin
      simp only at hfin ⊢
      by_cases h1 : Finished (visitExp fuel arg s)
      · rw [ihE arg s h1]
        cases ha : visitExp fuel arg s with
        | error f => rfl
        | ok v1 =>
          obtain ⟨v, s1⟩ := v1
          rw [ha] at hfin
          exact ihB _ _ _ _ hfin
      · rw [not_finished h1] at hfin
        exact absurd rfl hfin

theorem visitStm_stable (fuel : Nat) (ih : FuelStable fuel) (stm : Stm) (s : Interpreter)
    (hfin : Finished (visitStm (fuel + 1) stm s)) :
    visitStm (fuel + 2) stm s = visitStm (fuel + 1) stm s := by
  obtain ⟨ihE, _, ihS, ihW, ihL, _⟩ := ih
  cases stm with
  | Assignment name rvalue =>
    simp only [visitStm] at hfin ⊢
    by_cases h1 : Finished (visitExp fuel rvalue s)
    · rw [ihE rvalue s h1]
    · rw [not_finished h1] at hfin
      exact absurd rfl hfin
  | Block statements =>
    simp only [visitStm] at hfin ⊢
    exact ihL statements s hfin
  | IfThenElse p thenStm elseStm =>
    simp only [visitStm] at hfin ⊢
    by_cases h1 : Finished (visitExp fuel p s)
    · rw [ihE p s h1]
      cases hp : visitExp fuel p s with
      | error f => rfl
      | ok v1 =>
        obtain ⟨pv, s1⟩ := v1
        rw [hp] at hfin
        simp only at hfin ⊢
        cases hb : pv.bool_value with
        | error f => rfl
        | ok b =>
          rw [hb] at hfin
          cases b with
          | true => exact ihS thenStm s1 hfin
          | false =>
            cases elseStm with
            | none => rfl
            | some els => exact ihS els s1 hfin
    · rw [not_finished h1] at hfin
      exact absurd rfl hfin
  | While p block =>
    simp only [visitStm] at hfin ⊢
    exact ihW p block s hfin
  | VarDecl id type => simp [visitStm]
  | ReturnStm e =>
    simp only [visitStm] at hfin ⊢
    exact ihE e s hfin

theorem visitWhile_stable (fuel : Nat) (ih : FuelStable fuel) (p : Exp) (block : Stm)
    (s : Interpreter) (hfin : Finished (visitWhile (fuel + 1) p block s)) :
    visitWhile (fuel + 2) p block s = visitWhile (fuel + 1) p block s := by
  obtain ⟨ihE, _, ihS, ihW, _, _⟩ := ih
  rw [visitWhile] at hfin
  rw [visitWhile, visitWhile]
  by_cases h1 : Finished (visitExp fuel p s)
  · rw [ihE p s h1]
    cases hp : visitExp fuel p s with
    | error f => rfl
    | ok v1 =>
      obtain ⟨pv, s1⟩ := v1
      rw [hp] at hfin
      simp only at hfin ⊢
      cases hb : pv.bool_value with
      | error f => rfl
      | ok b =>
        rw [hb] at hfin
        cases b with
        | false => rfl
        | true =>
          simp only at hfin ⊢
          by_cases h2 : Finished (visitStm fuel block s1)
          · rw [ihS block s1 h2]
            cases hs : visitStm fuel block s1 with
            | error f => rfl
            | ok v2 =>
              obtain ⟨v, s2⟩ := v2
              rw [hs] at hfin
              simp only at hfin ⊢
              cases hr : s2.is_return_ with
              | true => rfl
              | false =>
                rw [hr] at hfin
                exact ihW p block s2 hfin
          · rw [not_finished h2] at hfin
            exact absurd rfl hfin
  · rw [not_finished h1] at hfin
    exact absurd rfl hfin

theorem visitStatements_stable (fuel : Nat) (ih : FuelStable fuel) (stms : List Stm)
    (s : Interpreter) (hfin : Finished (visitStatements (fuel + 1) stms s)) :
    visitStatements (fuel + 2) stms s = visitStatements (fuel + 1) stms s := by
  obtain ⟨_, _, ihS, _, ihL, _⟩ := ih
  cases stms with
  | nil => simp [visitStatements]
  | cons stm rest =>
    simp only [visitStatements] at hfin ⊢
    by_cases h1 : Finished (visitStm fuel stm s)
    · rw [ihS stm s h1]
      cases hs : visitStm fuel stm s with
      | error f => rfl
      | ok v1 =>
        obtain ⟨v, s1⟩ := v1
        rw [hs] at hfin
        simp only at hfin ⊢
        cases hr : IsReturn stm with
        | true => rfl
        | false =>
          rw [hr] at hfin
          exact ihL rest s1 hfin
    · rw [not_finished h1] at hfin
      exact absurd rfl hfin

theorem visitFunctionDecl_stable (fuel : Nat) (ih : FuelStable fuel) (n : FunctionDecl)
    (s : Interpreter) (hfin : Finished (visitFunctionDecl (fuel + 1) n s)) :
    visitFunctionDecl (fuel + 2) n s = visitFunctionDecl (fuel + 1) n s := by
  obtain ⟨_, _, _, _, ihL, _⟩ := ih
  simp only [visitFunctionDecl] at hfin ⊢
  exact ihL _ _ hfin

theorem fuelStable (fuel : Nat) : FuelStable fuel := by
  induction fuel with
  | zero =>
    refine ⟨?_, ?_, ?_, ?_, ?_, ?_⟩ <;> intros <;> rename_i h <;>
      first
      | exact absurd (by simp [visitExp]) h
      | exact absurd (by simp [bindArguments]) h
      | exact absurd (by simp [visitStm]) h
      | exact absurd (by simp [visitWhile]) h
      | exact absurd (by simp [visitStatements]) h
      | exact absurd (by simp [visitFunctionDecl]) h
  | succ fuel ih =>
    exact ⟨visitExp_stable fuel ih, bindArguments_stable fuel ih, visitStm_stable fuel ih,
      visitWhile_stable fuel ih, visitStatements_stable fuel ih, visitFunctionDecl_stable fuel ih⟩

theorem finished_of_eq_ok {α : Type} {r : Except Fault α} {a : α} (h : r = .ok a) :
    Finished r := by
  rw [h]; intro h'; cases h'

theorem finished_of_map_eq_ok {α β : Type} {r : Except Fault α} {f : α → β} {b : β}
    (h : r.map f = .ok b) : Finished r := by
  intro h'
  rw [h'] at h
  cases h

theorem visitExp_add (fuel k : Nat) (e : Exp) (s : Interpreter)
    (h : Finished (visitExp fuel e s)) : visitExp (fuel + k) e s = visitExp fuel e s := by
  induction k with
  | zero => rfl
  | succ k ih =>
    have h' : Finished (visitExp (fuel + k) e s) := by rw [ih]; exact h
    rw [← Nat.add_assoc, (fuelStable (fuel + k)).1 e s h', ih]

theorem bindArguments_add (fuel k : Nat) (args : List Exp) (i : Nat) (ps : List FunctionParam)
    (s : Interpreter) (h : Finished (bindArguments fuel args i ps s)) :
    bindArguments (fuel + k) args i ps s = bindArguments fuel args i ps s := by
  induction k with
  | zero => rfl
  | succ k ih =>
    have h' : Finished (bindArguments (fuel + k) args i ps s) := by rw [ih]; exact h
    rw [← Nat.add_assoc, (fuelStable (fuel + k)).2.1 args i ps s h', ih]

theorem visitFunctionDecl_add (fuel k : Nat) (n : FunctionDecl) (s : Interpreter)
    (h : Finished (visitFunctionDecl fuel n s)) :
    visitFunctionDecl (fuel + k) n s = visitFunctionDecl fuel n s := by
  induction k with
  | zero => rfl
  | succ k ih =>
    have h' : Finished (visitFunctionDecl (fuel + k) n s) := by rw [ih]; exact h
    rw [← Nat.add_assoc, (fuelStable (fuel + k)).2.2.2.2.2 n s h', ih]

theorem Evaluate_add (fuel k : Nat) (s : Interpreter) (cp : CheckedProgram)
    (h : Finished (Evaluate fuel s cp)) : Evaluate (fuel + k) s cp = Evaluate fuel s cp := by
  unfold Evaluate visitProgram at h ⊢
  by_cases h1 : Finished (visitFunctionDecl fuel cp.program.main
      { function_table_ := cp.program.functions.foldl insertFunction s.function_table_,
        evaluation_table_ := EnterScope s.evaluation_table_, is_return_ := s.is_return_ })
  · rw [visitFunctionDecl_add fuel k _ _ h1]
  · rw [not_finished h1] at h
    exact absurd rfl h

theorem Evaluate_result_add (fuel k : Nat) (s : Interpreter) (p : Program) (d : ℚ)
    (h : Evaluate.result fuel s p = .ok d) : Evaluate.result (fuel + k) s p = .ok d := by
  unfold Evaluate.result at h ⊢
  by_cases h1 : Finished (Evaluate fuel s ⟨p, []⟩)
  · rw [Evaluate_add fuel k s _ h1]; exact h
  · rw [not_finished h1] at h
    cases h

theorem evaluateAfter_add (fuel k : Nat) (s : Interpreter) (P Q : Program) (d : ℚ)
    (h : evaluateAfter fuel s P Q = .ok d) : evaluateAfter (fuel + k) s P Q = .ok d := by
  unfold evaluateAfter at h ⊢
  by_cases h1 : Finished (Evaluate fuel s ⟨P, []⟩)
  · rw [Evaluate_add fuel k s _ h1]
    cases hP : Evaluate fuel s ⟨P, []⟩ with
    | error f => rw [hP] at h; cases h
    | ok r =>
      rw [hP] at h
      exact Evaluate_result_add fuel k r.2 Q d h
  · rw [not_finished h1] at h
    cases h

/-! ### The flag `is_return_` -/

theorem visitExp_flag (fuel : Nat) (ih : FlagDown fuel) (e : Exp) (s : Interpreter)
    (v : VisitorValue) (s' : Interpreter) (h : visitExp (fuel + 1) e s = .ok (v, s'))
    (hs : s.is_return_ = false) : s'.is_return_ = false := by
  obtain ⟨ihE, ihB, _, _, _, ihF⟩ := ih
  cases e with
  | NumLiteral x =>
    simp only [visitExp, Except.ok.injEq, Prod.mk.injEq] at h
    rw [← h.2]; exact hs
  | BooleanLiteral x =>
    simp only [visitExp, Except.ok.injEq, Prod.mk.injEq] at h
    rw [← h.2]; exact hs
  | Identifier name =>
    simp only [visitExp] at h
    cases hg : Get s.evaluation_table_ name <;> rw [hg] at h <;>
      simp only [Except.ok.injEq, Prod.mk.injEq] at h <;> (rw [← h.2]; exact hs)
  | BinaryOp ty op l r =>
    simp only [visitExp] at h
    cases hl : visitExp fuel l s with
    | error f => rw [hl] at h; cases h
    | ok v1 =>
      obtain ⟨lv, s1⟩ := v1
      rw [hl] at h
      simp only at h
      cases hr : visitExp fuel r s1 with
      | error f => rw [hr] at h; cases h
      | ok v2 =>
        obtain ⟨rv, s2⟩ := v2
        rw [hr] at h
        simp only at h
        cases ho : evalBinaryOp op lv rv with
        | error f => rw [ho] at h; cases h
        | ok w =>
          rw [ho] at h
          simp only [Except.ok.injEq, Prod.mk.injEq] at h
          rw [← h.2]
          exact ihE r s1 rv s2 hr (ihE l s lv s1 hl hs)
  | UnaryOp ty op x =>
    simp only [visitExp] at h
    cases hx : visitExp fuel x s with
    | error f => rw [hx] at h; cases h
    | ok v1 =>
      obtain ⟨xv, s1⟩ := v1
      rw [hx] at h
      simp only at h
      cases ho : evalUnaryOp op xv with
      | error f => rw [ho] at h; cases h
      | ok w =>
        rw [ho] at h
        simp only [Except.ok.injEq, Prod.mk.injEq] at h
        rw [← h.2]
        exact ihE x s xv s1 hx hs
  | Conditional p t f =>
    simp only [visitExp] at h
    cases hp : visitExp fuel p s with
    | error f => rw [hp] at h; cases h
    | ok v1 =>
      obtain ⟨pv, s1⟩ := v1
      rw [hp] at h
      simp only at h
      have h1 := ihE p s pv s1 hp hs
      cases hb : pv.bool_value with
      | error f => rw [hb] at h; cases h
      | ok b =>
        rw [hb] at h
        cases b with
        | true => exact ihE t s1 v s' h h1
        | false => exact ihE f s1 v s' h h1
  | FunctionCall id args =>
    simp only [visitExp] at h
    cases hfn : s.function_table_.lookup id with
    | none => rw [hfn] at h; cases h
    | some fn =>
      rw [hfn] at h
      simp only at h
      cases hb : bindArguments fuel args 0 fn.formals
          { s with evaluation_table_ := EnterScope s.evaluation_table_ } with
      | error f => rw [hb] at h; cases h
      | ok s1 =>
        rw [hb] at h
        simp only at h
        cases hf : visitFunctionDecl fuel fn s1 with
        | error f => rw [hf] at h; cases h
        | ok v2 =>
          obtain ⟨cv, s2⟩ := v2
          rw [hf] at h
          simp only [Except.ok.injEq, Prod.mk.injEq] at h
          rw [← h.2]
          exact ihF fn s1 cv s2 hf

theorem bindArguments_flag (fuel : Nat) (ih : FlagDown fuel) (args : List Exp) (i : Nat)
    (ps : List FunctionParam) (s s' : Interpreter)
    (h : bindArguments (fuel + 1) args i ps s = .ok s')
    (hs : s.is_return_ = false) : s'.is_return_ = false := by
  obtain ⟨ihE, ihB, _, _, _, _⟩ := ih
  cases args with
  | nil =>
    simp only [bindArguments, Except.ok.injEq] at h
    rw [← h]; exact hs
  | cons arg rest =>
    simp only [bindArguments] at h
    cases hp : ps.get? i with
    | none => rw [hp] at h; cases h
    | some param =>
      rw [hp] at h
      simp only at h
      cases ha : visitExp fuel arg s with
      | error f => rw [ha] at h; cases h
      | ok v1 =>
        obtain ⟨av, s1⟩ := v1
        rw [ha] at h
        exact ihB _ _ _ _ _ h (ihE arg s av s1 ha hs)

theorem visitStm_flag (fuel : Nat) (ih : FlagDown fuel) (stm : Stm) (s : Interpreter)
    (v : VisitorValue) (s' : Interpreter) (h : visitStm (fuel + 1) stm s = .ok (v, s'))
    (hs : s.is_return_ = false) : s'.is_return_ = false := by
  obtain ⟨ihE, _, ihS, ihW, ihL, _⟩ := ih
  cases stm with
  | Assignment name rvalue =>
    simp only [visitStm] at h
    cases hr : visitExp fuel rvalue s with
    | error f => rw [hr] at h; cases h
    | ok v1 =>
      obtain ⟨rv, s1⟩ := v1
      rw [hr] at h
      simp only [Except.ok.injEq, Prod.mk.injEq] at h
      rw [← h.2]
      exact ihE rvalue s rv s1 hr hs
  | Block statements =>
    simp only [visitStm] at h
    exact ihL statements s v s' h hs
  | IfThenElse p thenStm elseStm =>
    simp only [visitStm] at h
    cases hp : visitExp fuel p s with
    | error f => rw [hp] at h; cases h
    | ok v1 =>
      obtain ⟨pv, s1⟩ := v1
      rw [hp] at h
      simp only at h
      have h1 := ihE p s pv s1 hp hs
      cases hb : pv.bool_value with
      | error f => rw [hb] at h; cases h
      | ok b =>
        rw [hb] at h
        cases b with
        | true => exact ihS thenStm s1 v s' h h1
        | false =>
          cases elseStm with
          | none => cases h
          | some els => exact ihS els s1 v s' h h1
  | While p block =>
    simp only [visitStm] at h
    exact ihW p block s v s' h hs
  | VarDecl id type =>
    simp only [visitStm, Except.ok.injEq, Prod.mk.injEq] at h
    rw [← h.2]; exact hs
  | ReturnStm e =>
    simp only [visitStm] at h
    exact ihE e s v s' h hs

theorem visitWhile_flag (fuel : Nat) (ih : FlagDown fuel) (p : Exp) (block : Stm)
    (s : Interpreter) (v : VisitorValue) (s' : Interpreter)
    (h : visitWhile (fuel + 1) p block s = .ok (v, s'))
    (hs : s.is_return_ = false) : s'.is_return_ = false := by
  obtain ⟨ihE, _, ihS, ihW, _, _⟩ := ih
  rw [visitWhile] at h
  cases hp : visitExp fuel p s with
  | error f => rw [hp] at h; cases h
  | ok v1 =>
    obtain ⟨pv, s1⟩ := v1
    rw [hp] at h
    simp only at h
    have h1 := ihE p s pv s1 hp hs
    cases hb : pv.bool_value with
    | error f => rw [hb] at h; cases h
    | ok b =>
      rw [hb] at h
      cases b with
      | false =>
        simp only [Except.ok.injEq, Prod.mk.injEq] at h
        rw [← h.2]; exact h1
      | true =>
        simp only at h
        cases hbody : visitStm fuel block s1 with
        | error f => rw [hbody] at h; cases h
        | ok v2 =>
          obtain ⟨bv, s2⟩ := v2
          rw [hbody] at h
          have h2 := ihS block s1 bv s2 hbody h1
          simp only [h2] at h
          exact ihW p block s2 v s' h h2

theorem visitStatements_flag (fuel : Nat) (ih : FlagDown fuel) (stms : List Stm)
    (s : Interpreter) (v : VisitorValue) (s' : Interpreter)
    (h : visitStatements (fuel + 1) stms s = .ok (v, s'))
    (hs : s.is_return_ = false) : s'.is_return_ = false := by
  obtain ⟨_, _, ihS, _, ihL, _⟩ := ih
  cases stms with
  | nil =>
    simp only [visitStatements, Except.ok.injEq, Prod.mk.injEq] at h
    rw [← h.2]; exact hs
  | cons stm rest =>
    simp only [visitStatements] at h
    cases hstm : visitStm fuel stm s with
    | error f => rw [hstm] at h; cases h
    | ok v1 =>
      obtain ⟨sv, s1⟩ := v1
      rw [hstm] at h
      have h1 := ihS stm s sv s1 hstm hs
      cases hr : IsReturn stm with
      | true =>
        simp only [hr, if_true, Except.ok.injEq, Prod.mk.injEq] at h
        rw [← h.2]; exact h1
      | false =>
        simp only [hr] at h
        exact ihL rest s1 v s' h h1

theorem flagDown (fuel : Nat) : FlagDown fuel := by
  induction fuel with
  | zero =>
    refine ⟨?_, ?_, ?_, ?_, ?_, ?_⟩
    · intro e s v s' h; simp [visitExp] at h
    · intro args i ps s s' h; simp [bindArguments] at h
    · intro stm s v s' h; simp [visitStm] at h
    · intro p b s v s' h; simp [visitWhile] at h
    · intro stms s v s' h; simp [visitStatements] at h
    · intro n s v s' h; simp [visitFunctionDecl] at h
  | succ fuel ih =>
    refine ⟨visitExp_flag fuel ih, bindArguments_flag fuel ih, visitStm_flag fuel ih,
      visitWhile_flag fuel ih, visitStatements_flag fuel ih, ?_⟩
    intro n s v s' h
    simp only [visitFunctionDecl] at h
    exact ih.2.2.2.2.1 n.statements _ v s' h rfl

/-- The exit `if (is_return_) return value;` of `Visit(While*)` is never taken
inside a function body: a While that completes always yields the no-value, so
no value returned in its body ever leaves the loop. -/
theorem visitWhile_yields_null :
    ∀ (fuel : Nat) (p : Exp) (block : Stm) (s : Interpreter) (v : VisitorValue)
      (s' : Interpreter), visitWhile fuel p block s = .ok (v, s') →
      s.is_return_ = false → v = .null := by
  intro fuel
  induction fuel with
  | zero => intro p block s v s' h; simp [visitWhile] at h
  | succ fuel ih =>
    intro p block s v s' h hs
    obtain ⟨ihE, _, ihS, _, _, _⟩ := flagDown fuel
    rw [visitWhile] at h
    cases hp : visitExp fuel p s with
    | error f => rw [hp] at h; cases h
    | ok v1 =>
      obtain ⟨pv, s1⟩ := v1
      rw [hp] at h
      simp only at h
      have h1 := ihE p s pv s1 hp hs
      cases hb : pv.bool_value with
      | error f => rw [hb] at h; cases h
      | ok b =>
        rw [hb] at h
        cases b with
        | false =>
          simp only [Except.ok.injEq, Prod.mk.injEq] at h
          exact h.1.symm
        | true =>
          simp only at h
          cases hbody : visitStm fuel block s1 with
          | error f => rw [hbody] at h; cases h
          | ok v2 =>
            obtain ⟨bv, s2⟩ := v2
            rw [hbody] at h
            have h2 := ihS block s1 bv s2 hbody h1
            simp only [h2] at h
            exact ih p block s2 v s' h h2

/-! ### Early return -/

/-- C1 (failing input): `main { var x; x = 3; while (x > 0) { x = x - 1; return 7; }
return x; }` evaluates to 0, not to 7, with any fuel from 30 on: `is_return_` is
never set, so the `return` in the loop body neither stops the loop nor ends the
function. -/
theorem C1_while_return_is_ignored (is_return : Bool) (k : Nat) :
    Evaluate.result (30 + k) (Interpreter.fresh is_return) whileReturnProgram = .ok 0 := by
  apply Evaluate_result_add
  cases is_return <;> decide!

/-- C2 (failing input): `main { if (true) { return 1; } else { return 3; } return 2; }`
evaluates to 2, not to 1, with any fuel from 30 on: the statement list goes on
after the `IfThenElse` whose chosen branch returned. -/
theorem C2_if_return_is_ignored (is_return : Bool) (k : Nat) :
    Evaluate.result (30 + k) (Interpreter.fresh is_return) ifReturnProgram = .ok 2 := by
  apply Evaluate_result_add
  cases is_return <;> decide!

/-! ### Function calls -/

/-- C3 (failing input): binding the parameter `n` of `f` while a caller frame
binds `n` overwrites the caller's binding and creates nothing in the new frame;
`clobberProgram`, whose callee never assigns to `n`, returns 1 instead of 5
(with any fuel from 30 on). -/
theorem C3_parameter_binding_overwrites_caller (is_return : Bool) (k : Nat) :
    (bindArguments (5 + k) [.NumLiteral 1] 0 [⟨"n", .NUMBER⟩]
        ⟨[], EnterScope [[("n", .number 5)]], is_return⟩).map (·.evaluation_table_)
      = .ok [[], [("n", .number 1)]]
    ∧ Evaluate.result (30 + k) (Interpreter.fresh is_return) clobberProgram = .ok 1 := by
  have h : (bindArguments 5 [.NumLiteral 1] 0 [⟨"n", .NUMBER⟩]
      ⟨[], EnterScope [[("n", .number 5)]], is_return⟩).map (·.evaluation_table_)
      = .ok [[], [("n", .number 1)]] := by
    cases is_return <;> decide!
  refine ⟨?_, ?_⟩
  · rw [bindArguments_add 5 k _ _ _ _ (finished_of_map_eq_ok h)]
    exact h
  · apply Evaluate_result_add
    cases is_return <;> decide!

/-- C4 (failing input): in `f(1, a)` the second argument is evaluated after the
scope was pushed and the first parameter `a` was bound, so it reads 1: the call
returns 1, whether the caller binds `a` to 5 or does not bind `a` at all (with
any fuel from 30 on). -/
theorem C4_argument_sees_earlier_parameter (is_return : Bool) (k : Nat) :
    Evaluate.result (30 + k) (Interpreter.fresh is_return) argumentOrderProgram = .ok 1
    ∧ Evaluate.result (30 + k) (Interpreter.fresh is_return) argumentOrderUnboundProgram
        = .ok 1 := by
  refine ⟨?_, ?_⟩ <;> apply Evaluate_result_add <;> cases is_return <;> decide!

/-! ### Scoping in the checker -/

theorem Get_Put_new {α : Type} (t : SymbolTable α) (x : String) (v : α)
    (ht : t ≠ []) (hx : Get t x = none) : Get (Put t x v) x = some v := by
  cases t with
  | nil => exact absurd rfl ht
  | cons f fs =>
    unfold Put
    rw [hx]
    simp [Get, List.lookup]

theorem Get_Put_keep {α : Type} (t : SymbolTable α) (x : String) (v : α) (y : String) (w : α)
    (hx : Get t x = none) (hy : Get t y = some w) : Get (Put t x v) y = some w := by
  cases t with
  | nil => simp [Get] at hy
  | cons f fs =>
    have hne : (y == x) = false := by
      simp only [beq_eq_false_iff_ne, ne_eq]
      intro h; subst h; rw [hx] at hy; exact absurd hy (by simp)
    unfold Put
    rw [hx]
    simp only [Get, List.lookup, hne]
    exact hy

theorem Grows.refl (tab : SymbolTable Ty) : Grows tab tab :=
  ⟨fun h => h, fun _ _ h => h⟩

theorem Grows.trans {a b c : SymbolTable Ty} (h1 : Grows a b) (h2 : Grows b c) : Grows a c :=
  ⟨fun h => h2.1 (h1.1 h), fun y w h => h2.2 y w (h1.2 y w h)⟩

theorem Grows.put (tab : SymbolTable Ty) (x : String) (ty : Ty) (hx : Get tab x = none) :
    Grows tab (Put tab x ty) := by
  refine ⟨fun h => ?_, fun y w hy => Get_Put_keep tab x ty y w hx hy⟩
  cases tab with
  | nil => exact absurd rfl h
  | cons f fs => simp [Put, hx]

mutual
theorem checkStm_grows (ft : FunctionTable) (cur : String) :
    ∀ (stm : Stm) (tab tab' : SymbolTable Ty) (ds : List Diagnostic),
      checkStm ft cur stm tab = .ok (tab', ds) → Grows tab tab'
  | .Assignment lvalue rvalue, tab, tab', ds, h => by
    simp only [checkStm] at h
    split at h
    · exact absurd h (by simp)
    · split at h
      · exact absurd h (by simp)
      · exact absurd h (by simp)
      · simp only [Except.ok.injEq, Prod.mk.injEq] at h
        rw [← h.1]; exact Grows.refl _
  | .Block statements, tab, tab', ds, h => by
    simp only [checkStm] at h
    exact checkStms_grows ft cur statements tab tab' ds h
  | .IfThenElse predicate thenStm elseStm, tab, tab', ds, h => by
    simp only [checkStm] at h
    split at h
    · exact absurd h (by simp)
    · split at h
      · exact absurd h (by simp)
      · rename_i tab1 d1 h1
        have g1 := checkStm_grows ft cur thenStm tab tab1 d1 h1
        split at h
        · exact absurd h (by simp)
        · rename_i tab2 d2 h2
          have g2 := checkElse_grows ft cur elseStm tab1 tab2 d2 h2
          simp only [Except.ok.injEq, Prod.mk.injEq] at h
          rw [← h.1]; exact g1.trans g2
  | .While predicate block, tab, tab', ds, h => by
    simp only [checkStm] at h
    split at h
    · exact absurd h (by simp)
    · split at h
      · exact absurd h (by simp)
      · rename_i tab1 d1 h1
        have g1 := checkStm_grows ft cur block tab tab1 d1 h1
        simp only [Except.ok.injEq, Prod.mk.injEq] at h
        rw [← h.1]; exact g1
  | .VarDecl id type, tab, tab', ds, h => by
    simp only [checkStm] at h
    split at h
    · simp only [Except.ok.injEq, Prod.mk.injEq] at h
      rw [← h.1]; exact Grows.refl _
    · rename_i hx
      simp only [Except.ok.injEq, Prod.mk.injEq] at h
      rw [← h.1]; exact Grows.put tab id type hx
  | .ReturnStm expression, tab, tab', ds, h => by
    simp only [checkStm] at h
    split at h
    · exact absurd h (by simp)
    · split at h
      · exact absurd h (by simp)
      · simp only [Except.ok.injEq, Prod.mk.injEq] at h
        rw [← h.1]; exact Grows.refl _
theorem checkElse_grows (ft : FunctionTable) (cur : String) :
    ∀ (els : Option Stm) (tab tab' : SymbolTable Ty) (ds : List Diagnostic),
      checkElse ft cur els tab = .ok (tab', ds) → Grows tab tab'
  | none, tab, tab', ds, h => by
    simp only [checkElse, Except.ok.injEq, Prod.mk.injEq] at h
    rw [← h.1]; exact Grows.refl _
  | some els, tab, tab', ds, h => by
    simp only [checkElse] at h
    exact checkStm_grows ft cur els tab tab' ds h
theorem checkStms_grows (ft : FunctionTable) (cur : String) :
    ∀ (stms : List Stm) (tab tab' : SymbolTable Ty) (ds : List Diagnostic),
      checkStms ft cur stms tab = .ok (tab', ds) → Grows tab tab'
  | [], tab, tab', ds, h => by
    simp only [checkStms, Except.ok.injEq, Prod.mk.injEq] at h
    rw [← h.1]; exact Grows.refl _
  | stm :: rest, tab, tab', ds, h => by
    simp only [checkStms] at h
    split at h
    · exact absurd h (by simp)
    · rename_i tab1 d1 h1
      have g1 := checkStm_grows ft cur stm tab tab1 d1 h1
      split at h
      · exact absurd h (by simp)
      · rename_i tab2 d2 h2
        have g2 := checkStms_grows ft cur rest tab1 tab2 d2 h2
        simp only [Except.ok.injEq, Prod.mk.injEq] at h
        rw [← h.1]; exact g1.trans g2
end

theorem checkStms_binds (ft : FunctionTable) (cur : String) (x : String) (ty : Ty) :
    ∀ (stms : List Stm) (tab tab' : SymbolTable Ty) (ds : List Diagnostic),
      Stm.VarDecl x ty ∈ stms → tab ≠ [] →
      checkStms ft cur stms tab = .ok (tab', ds) → ∃ t, Get tab' x = some t
  | [], _, _, _, hmem, _, _ => by simp at hmem
  | stm :: rest, tab, tab', ds, hmem, hne, h => by
    simp only [checkStms] at h
    split at h
    · exact absurd h (by simp)
    · rename_i tab1 d1 h1
      have g1 := checkStm_grows ft cur stm tab tab1 d1 h1
      split at h
      · exact absurd h (by simp)
      · rename_i tab2 d2 h2
        have g2 := checkStms_grows ft cur rest tab1 tab2 d2 h2
        simp only [Except.ok.injEq, Prod.mk.injEq] at h
        rw [← h.1]
        rcases List.mem_cons.mp hmem with hhead | htail
        · subst hhead
          simp only [checkStm] at h1
          split at h1
          · rename_i t hget
            simp only [Except.ok.injEq, Prod.mk.injEq] at h1
            rw [h1.1] at hget
            exact ⟨t, g2.2 x t hget⟩
          · rename_i hget
            simp only [Except.ok.injEq, Prod.mk.injEq] at h1
            have hnew := Get_Put_new tab x ty hne hget
            rw [h1.1] at hnew
            exact ⟨ty, g2.2 x ty hnew⟩
        · exact checkStms_binds ft cur x ty rest tab1 tab2 d2 htail (g1.1 hne) h2

/-- C5 (as amended): when the checker has checked, with a scope open, an
IfThenElse whose then-branch is a Block containing `VarDecl x`, `Get(x)` on the
compile-time table yields a type: the binding made in the branch stays in the
enclosing scope, so an Identifier `x` checked after the IfThenElse is
annotated with that type and produces no diagnostic. -/
theorem C5_branch_declaration_stays_visible (ft : FunctionTable) (cur : String)
    (predicate : Exp) (statements : List Stm) (elseStm : Option Stm)
    (x : String) (ty : Ty) (tab tab' : SymbolTable Ty) (ds : List Diagnostic)
    (hmem : Stm.VarDecl x ty ∈ statements)
    (hopen : tab ≠ [])
    (hrun : checkStm ft cur (.IfThenElse predicate (.Block statements) elseStm) tab
      = .ok (tab', ds)) :
    ∃ t, Get tab' x = some t ∧ checkExp ft tab' (.Identifier x) = .ok (some t, []) := by
  simp only [checkStm] at hrun
  split at hrun
  · exact absurd hrun (by simp)
  · split at hrun
    · exact absurd hrun (by simp)
    · rename_i tab1 d1 h1
      obtain ⟨t, ht⟩ := checkStms_binds ft cur x ty statements tab tab1 d1 hmem hopen h1
      split at hrun
      · exact absurd hrun (by simp)
      · rename_i tab2 d2 h2
        have g2 := checkElse_grows ft cur elseStm tab1 tab2 d2 h2
        simp only [Except.ok.injEq, Prod.mk.injEq] at hrun
        rw [← hrun.1]
        refine ⟨t, g2.2 x t ht, ?_⟩
        simp [checkExp, g2.2 x t ht]

/-- C5 witness: `if (true) { var x: number; }` checked in one empty scope. -/
theorem C5_branch_declaration_stays_visible_witness :
    Stm.VarDecl "x" .NUMBER ∈ [Stm.VarDecl "x" .NUMBER]
    ∧ ([[]] : SymbolTable Ty) ≠ []
    ∧ checkStm [] "main" (.IfThenElse (.BooleanLiteral true) (.Block [.VarDecl "x" .NUMBER]) none)
        [[]] = .ok ([[("x", .NUMBER)]], [])
    ∧ ∃ t, Get [[("x", Ty.NUMBER)]] "x" = some t
        ∧ checkExp [] [[("x", Ty.NUMBER)]] (.Identifier "x") = .ok (some t, []) :=
  ⟨by simp, by simp, by decide,
    C5_branch_declaration_stays_visible [] "main" (.BooleanLiteral true)
      [.VarDecl "x" .NUMBER] none "x" .NUMBER [[]] [[("x", .NUMBER)]] []
      (by simp) (by simp) (by decide)⟩

/-- C5 (counterexample): `x` is bound in no scope, the checker checks
`if (true) { var x: number; }`, and afterwards `Get(x)` finds `x` and an
Identifier `x` produces no UndefinedIdentifier diagnostic. -/
theorem C5_counterexample :
    Get ([[]] : SymbolTable Ty) "x" = none
    ∧ (checkStm [] "main" declareInBranch [[]]).map (fun r => Get r.1 "x") = .ok (some .NUMBER)
    ∧ (checkStm [] "main" declareInBranch [[]]).map
        (fun r => checkExp [] r.1 (.Identifier "x")) = .ok (.ok (some .NUMBER, [])) := by
  decide

/-! ### Unset type annotations -/

/-- C6 (failing input): checking `x = y` with `y` undeclared, and checking
`true ? 1 : y`, both end in a null dereference: the type of the undefined
identifier is left unset and `Visit(Assignment*)` / `Visit(Conditional*)` read
`GetType()->GetValue()` from it without the test that `Check` makes. -/
theorem C6_unset_type_is_dereferenced :
    TypeCheck.diagnostics TypeChecker.fresh undefinedRhsProgram = .error .nullDeref
    ∧ TypeCheck.diagnostics TypeChecker.fresh undefinedFalseBranchProgram = .error .nullDeref := by
  decide

/-! ### Argument and parameter counts -/

/-- C7 (failing input): matching two arguments against one parameter type
reads `parameter_types[1]`, past the end of the list, in
`CheckParameterArgumentMatch`; so does checking `tooManyArgumentsProgram`. With
fewer arguments than parameters the loop stays in bounds and only the arity
message is written. -/
theorem C7_more_arguments_read_out_of_bounds :
    CheckParameterArgumentMatch [some .NUMBER, some .NUMBER] [.NUMBER] = .error .outOfBounds
    ∧ TypeCheck.diagnostics TypeChecker.fresh tooManyArgumentsProgram = .error .outOfBounds
    ∧ CheckParameterArgumentMatch [some .NUMBER] [.NUMBER, .NUMBER] = .ok [.ArityMismatch] := by
  decide

/-! ### State across evaluations -/

/-- C8 (failing input): with P = `f() { return 1; } main() { return f(); }` and
Q = `f() { return 2; } main() { return f(); }`, a fresh interpreter evaluates Q
to 2, but the interpreter that has run P evaluates Q to 1 (with any fuel from 30
on): P's `f` is still in `function_table_` and `insert` does not replace it. -/
theorem C8_function_table_survives_evaluate (is_return : Bool) (k : Nat) :
    Evaluate.result (30 + k) (Interpreter.fresh is_return) (constantProgram 2) = .ok 2
    ∧ evaluateAfter (30 + k) (Interpreter.fresh is_return) (constantProgram 1)
        (constantProgram 2) = .ok 1 := by
  refine ⟨?_, ?_⟩
  · apply Evaluate_result_add
    cases is_return <;> decide!
  · apply evaluateAfter_add
    cases is_return <;> decide!

/-! ### Function registration -/

theorem trunc_neg (d : ℚ) : trunc (-d) = -trunc d := by
  unfold trunc
  rcases lt_trichotomy d 0 with h | h | h
  · have h1 : 0 ≤ -d := by linarith
    have h2 : ¬ (0 ≤ d) := by linarith
    simp [h1, h2, Int.floor_neg]
  · subst h
    simp
  · have h1 : ¬ (0 ≤ -d) := by linarith
    have h2 : 0 ≤ d := by linarith
    simp [h1, h2, Int.ceil_neg]

theorem trunc_div_of_nonneg (m n : Int) (hm : 0 ≤ m) (hn : 0 < n) :
    trunc ((m : ℚ) / (n : ℚ)) = Int.tdiv m n := by
  have hq : (0 : ℚ) ≤ (m : ℚ) / (n : ℚ) := by positivity
  have hcast : (n : ℚ) = ((n.toNat : ℕ) : ℚ) := by
    have : ((n.toNat : ℕ) : ℤ) = n := Int.toNat_of_nonneg hn.le
    exact_mod_cast this.symm
  unfold trunc
  rw [if_pos hq, hcast, Rat.floor_intCast_div_natCast, Int.toNat_of_nonneg hn.le]
  exact (Int.tdiv_eq_ediv hm hn.le).symm

theorem trunc_div_of_pos (m n : Int) (hn : 0 < n) :
    trunc ((m : ℚ) / (n : ℚ)) = Int.tdiv m n := by
  rcases le_or_lt 0 m with hm | hm
  · exact trunc_div_of_nonneg m n hm hn
  · have h := trunc_div_of_nonneg (-m) n (by omega) hn
    have e : ((-m : ℤ) : ℚ) / (n : ℚ) = -((m : ℚ) / (n : ℚ)) := by push_cast; ring
    rw [e, trunc_neg, Int.neg_tdiv] at h
    exact neg_injective h

theorem trunc_div (m n : Int) (hn : n ≠ 0) :
    trunc ((m : ℚ) / (n : ℚ)) = Int.tdiv m n := by
  rcases lt_or_gt_of_ne hn with h | h
  · have h1 := trunc_div_of_pos m (-n) (by omega)
    have e : (m : ℚ) / ((-n : ℤ) : ℚ) = -((m : ℚ) / (n : ℚ)) := by push_cast; ring
    rw [e, trunc_neg, Int.tdiv_neg] at h1
    exact neg_injective h1
  · exact trunc_div_of_pos m n h

theorem moduloSpec_eq_tmod (a b : ℚ) (hb : trunc b ≠ 0) :
    moduloSpec a b = Int.tmod (trunc a) (trunc b) := by
  unfold moduloSpec
  rw [trunc_div _ _ hb, Int.tmod_def]

theorem tmod_sign (m n : Int) : Int.tmod m n = 0 ∨ Int.sign (Int.tmod m n) = Int.sign m := by
  rcases lt_trichotomy m 0 with h | h | h
  · have e : Int.tmod m n = -(Int.tmod (-m) n) := by
      rw [Int.tmod_def, Int.tmod_def, Int.neg_tdiv]; ring
    have h0 : 0 ≤ Int.tmod (-m) n := Int.tmod_nonneg n (by omega)
    rcases h0.eq_or_lt with h1 | h1
    · left; omega
    · right
      rw [Int.sign_eq_neg_one_of_neg h, Int.sign_eq_neg_one_of_neg (by omega)]
  · subst h; left; simp
  · have h0 : 0 ≤ Int.tmod m n := Int.tmod_nonneg n h.le
    rcases h0.eq_or_lt with h1 | h1
    · left; omega
    · right
      rw [Int.sign_eq_one_of_pos h, Int.sign_eq_one_of_pos h1]

/-- C10 (as amended): for a `%` node whose operands evaluate to the numbers `a`
and `b`, both truncating into the range of `long`, with `trunc b ≠ 0` and not
(`trunc a = LONG_MIN` and `trunc b = -1`), the interpreter returns the number
`r = trunc a - trunc b * trunc (trunc a / trunc b)`, and `r` is zero or has the
sign of `trunc a`. -/
theorem C10_modulo_truncates (fuel : Nat) (type : Ty) (left right : Exp)
    (s s1 s2 : Interpreter) (a b : ℚ)
    (hl : visitExp fuel left s = .ok (.number a, s1))
    (hr : visitExp fuel right s1 = .ok (.number b, s2))
    (ha : LONG_MIN ≤ trunc a ∧ trunc a ≤ LONG_MAX)
    (hb : LONG_MIN ≤ trunc b ∧ trunc b ≤ LONG_MAX)
    (hb0 : trunc b ≠ 0)
    (hov : ¬ (trunc a = LONG_MIN ∧ trunc b = -1)) :
    visitExp (fuel + 1) (.BinaryOp type .MODULO left right) s
        = .ok (.number ((moduloSpec a b : Int) : ℚ), s2)
      ∧ (moduloSpec a b = 0 ∨ Int.sign (moduloSpec a b) = Int.sign (trunc a)) := by
  refine ⟨?_, ?_⟩
  · rw [moduloSpec_eq_tmod a b hb0]
    simp [visitExp, hl, hr, evalBinaryOp, VisitorValue.double_value, toLong, longMod,
      ha, hb, hb0, hov, bind, Except.bind, pure, Except.pure]
  · rw [moduloSpec_eq_tmod a b hb0]
    exact tmod_sign _ _

/-- C10 witness: `-7.5 % 3`, on literal operands, is `-1.0`. -/
theorem C10_modulo_truncates_witness :
    (LONG_MIN ≤ trunc (-15 / 2) ∧ trunc (-15 / 2) ≤ LONG_MAX)
    ∧ (LONG_MIN ≤ trunc 3 ∧ trunc 3 ≤ LONG_MAX)
    ∧ trunc 3 ≠ 0
    ∧ ¬ (trunc (-15 / 2) = LONG_MIN ∧ trunc 3 = -1)
    ∧ moduloSpec (-15 / 2) 3 = -1
    ∧ (visitExp 2 (.BinaryOp .NUMBER .MODULO (.NumLiteral (-15 / 2)) (.NumLiteral 3))
          (Interpreter.fresh false)
        = .ok (.number ((moduloSpec (-15 / 2) 3 : Int) : ℚ), Interpreter.fresh false)
      ∧ (moduloSpec (-15 / 2) 3 = 0
          ∨ Int.sign (moduloSpec (-15 / 2) 3) = Int.sign (trunc (-15 / 2)))) :=
  ⟨by decide!, by decide!, by decide!, by decide!, by decide!,
    C10_modulo_truncates 1 .NUMBER (.NumLiteral (-15 / 2)) (.NumLiteral 3)
      (Interpreter.fresh false) (Interpreter.fresh false) (Interpreter.fresh false) (-15 / 2) 3
      (by rfl) (by rfl) (by decide!) (by decide!) (by decide!) (by decide!)⟩

/-- C10 (counterexample): `LONG_MIN % -1`.  Both operands are in the range of
`long` and the right one is not zero, yet the `long` remainder overflows: the
interpreter does not return the number 0 that the formula gives. -/
theorem C10_counterexample :
    (LONG_MIN ≤ trunc (LONG_MIN : ℚ) ∧ trunc (LONG_MIN : ℚ) ≤ LONG_MAX)
    ∧ (LONG_MIN ≤ trunc (-1) ∧ trunc (-1) ≤ LONG_MAX)
    ∧ trunc (-1) ≠ 0
    ∧ moduloSpec (LONG_MIN : ℚ) (-1) = 0
    ∧ (visitExp 2 (.BinaryOp .NUMBER .MODULO (.NumLiteral (LONG_MIN : ℚ)) (.NumLiteral (-1)))
        (Interpreter.fresh false)).map (·.1) = .error .overflow := by
  decide!

/-- The three modulo examples of the specification: `7 % 3`, `7.9 % 2.9` and
`-7.5 % 3`. -/
theorem modulo_examples :
    evalBinaryOp .MODULO (.number 7) (.number 3) = .ok (.number 1)
    ∧ evalBinaryOp .MODULO (.number (79 / 10)) (.number (29 / 10)) = .ok (.number 1)
    ∧ evalBinaryOp .MODULO (.number (-15 / 2)) (.number 3) = .ok (.number (-1)) := by
  decide!

/-! ### More on fuel -/

theorem Evaluate_result_stable (fuel k : Nat) (s : Interpreter) (p : Program)
    (h : Finished (Evaluate.result fuel s p)) :
    Evaluate.result (fuel + k) s p = Evaluate.result fuel s p := by
  unfold Evaluate.result at h ⊢
  by_cases h1 : Finished (Evaluate fuel s ⟨p, []⟩)
  · rw [Evaluate_add fuel k s _ h1]
  · rw [not_finished h1] at h
    exact absurd rfl h

theorem Evaluate_result_add_error (fuel k : Nat) (s : Interpreter) (p : Program) (f : Fault)
    (h : Evaluate.result fuel s p = .error f) (hf : f ≠ .outOfFuel) :
    Evaluate.result (fuel + k) s p = .error f := by
  rw [Evaluate_result_stable fuel k s p, h]
  rw [h]
  intro h'
  exact hf (Except.error.inj h')

/-! ### Rounding to double -/

theorem bitLength_bounds : ∀ (fuel n : Nat), n ≤ fuel → 0 < n →
    2 ^ (bitLength fuel n - 1) ≤ n ∧ n < 2 ^ bitLength fuel n ∧ 0 < bitLength fuel n := by
  intro fuel
  induction fuel with
  | zero => intro n h hpos; omega
  | succ fuel ih =>
    intro n h hpos
    have hn : n ≠ 0 := by omega
    simp only [bitLength, hn, if_false]
    rcases Nat.eq_zero_or_pos (n / 2) with h0 | h2
    · have h1 : n = 1 := by omega
      subst h1
      cases fuel <;> simp [bitLength]
    · obtain ⟨a, b, c⟩ := ih (n / 2) (by omega) h2
      refine ⟨?_, ?_, by omega⟩
      · have e : bitLength fuel (n / 2) + 1 - 1 = (bitLength fuel (n / 2) - 1) + 1 := by omega
        rw [e, pow_succ]
        omega
      · rw [pow_succ]
        omega

theorem log2Floor_bounds (n : Nat) (hpos : 0 < n) :
    2 ^ log2Floor n ≤ n ∧ n < 2 ^ (log2Floor n + 1) := by
  obtain ⟨a, b, c⟩ := bitLength_bounds n n (le_refl n) hpos
  unfold log2Floor
  refine ⟨a, ?_⟩
  have e : bitLength n n - 1 + 1 = bitLength n n := by omega
  rw [e]; exact b

theorem log2Floor_one : log2Floor 1 = 0 := by decide

theorem roundHalfEven_intCast (z : Int) : roundHalfEven (z : ℚ) = z := by
  simp [roundHalfEven]

theorem binaryExponent_natCast (m : Nat) (hm : 0 < m) :
    binaryExponent (m : ℚ) = log2Floor m := by
  have h1 : (2 : ℚ) ^ ((log2Floor m : Int)) ≤ (m : ℚ) := by
    rw [zpow_natCast]
    exact_mod_cast (log2Floor_bounds m hm).1
  have h2 : (2 : ℚ) ^ log2Floor m ≤ (m : ℚ) := by exact_mod_cast (log2Floor_bounds m hm).1
  simp [binaryExponent, log2Floor_one, h2]

theorem natCast_div_ulp (m : Nat) (hpos : 0 < m) (hm : m ≤ 2 ^ 53) :
    ∃ z : Int, (m : ℚ) / (2 : ℚ) ^ ((log2Floor m : Int) - 52) = (z : ℚ) := by
  have hb := log2Floor_bounds m hpos
  have hL : log2Floor m ≤ 53 := by
    by_contra hc
    have : 2 ^ 54 ≤ 2 ^ log2Floor m := Nat.pow_le_pow_right (by norm_num) (by omega)
    omega
  rcases Nat.lt_or_ge (log2Floor m) 53 with h | h
  · refine ⟨(m * 2 ^ (52 - log2Floor m) : Nat), ?_⟩
    have e : ((log2Floor m : Int) - 52) = -((52 - log2Floor m : Nat) : Int) := by omega
    rw [e, zpow_neg, zpow_natCast, div_inv_eq_mul]
    push_cast
    rfl
  · have hL53 : log2Floor m = 53 := by omega
    have hm53 : m = 2 ^ 53 := by
      have := hb.1
      rw [hL53] at this
      omega
    refine ⟨2 ^ 52, ?_⟩
    rw [hL53, hm53]
    norm_num

theorem roundToDouble_natCast (m : Nat) (hm : m ≤ 2 ^ 53) : roundToDouble (m : ℚ) = .ok (m : ℚ) := by
  rcases Nat.eq_zero_or_pos m with h0 | hpos
  · subst h0; simp [roundToDouble]
  have hne : (m : ℚ) ≠ 0 := by exact_mod_cast (Nat.pos_iff_ne_zero.mp hpos)
  have habs : |(m : ℚ)| = m := abs_of_nonneg (by positivity)
  have hulp : ulpExponent (m : ℚ) = (log2Floor m : Int) - 52 := by
    unfold ulpExponent
    rw [habs, binaryExponent_natCast m hpos]
    omega
  obtain ⟨z, hz⟩ := natCast_div_ulp m hpos hm
  have hpow : (2 : ℚ) ^ ((log2Floor m : Int) - 52) ≠ 0 := zpow_ne_zero _ (by norm_num)
  have hval : (roundHalfEven ((m : ℚ) / (2 : ℚ) ^ ulpExponent (m : ℚ)) : ℚ)
      * (2 : ℚ) ^ ulpExponent (m : ℚ) = (m : ℚ) := by
    rw [hulp, hz, roundHalfEven_intCast, ← hz, div_mul_cancel₀ _ hpow]
  have hlt : |(m : ℚ)| < (2 : ℚ) ^ (1024 : Int) := by
    rw [habs]
    have h1 : (m : ℚ) ≤ (2 : ℚ) ^ (53 : Nat) := by exact_mod_cast hm
    have h2 : (2 : ℚ) ^ (53 : Nat) < (2 : ℚ) ^ (1024 : Int) := by
      rw [show ((1024 : Int)) = ((1024 : Nat) : Int) from rfl, zpow_natCast]
      exact pow_lt_pow_right₀ (by norm_num) (by norm_num)
    exact lt_of_le_of_lt h1 h2
  unfold roundToDouble
  rw [if_neg hne, hval, if_pos hlt]

/-- Values of `roundToDouble`: `0.1`, a tie that goes down to the even
neighbour and one that goes up, the largest double, the overflow just above it,
and the subnormal range. -/
theorem roundToDouble_examples :
    roundToDouble (1 / 10) = .ok (3602879701896397 / 36028797018963968)
    ∧ roundToDouble 9007199254740993 = .ok 9007199254740992
    ∧ roundToDouble 9007199254740995 = .ok 9007199254740996
    ∧ roundToDouble (-9007199254740993) = .ok (-9007199254740992)
    ∧ roundToDouble ((2 ^ 53 - 1) * 2 ^ 971) = .ok ((2 ^ 53 - 1) * 2 ^ 971)
    ∧ roundToDouble ((2 ^ 54 - 1) * 2 ^ 970) = .error .notFinite
    ∧ roundToDouble (3 / 2 ^ 1075) = .ok (1 / 2 ^ 1073)
    ∧ roundToDouble (1 / 2 ^ 1075) = .ok 0 := by
  decide!

/-! ### The countdown loop -/

theorem countWhile_agrees : ∀ (fuel : Nat) (p : Exp) (b : Stm) (s : Interpreter),
    (countWhile fuel p b s).map (·.1) = visitWhile fuel p b s := by
  intro fuel
  induction fuel with
  | zero => intro p b s; rfl
  | succ fuel ih =>
    intro p b s
    rw [countWhile, visitWhile]
    cases hp : visitExp fuel p s with
    | error f => rfl
    | ok v1 =>
      obtain ⟨pv, s1⟩ := v1
      simp only
      cases hb : pv.bool_value with
      | error f => rfl
      | ok bv =>
        cases bv with
        | false => rfl
        | true =>
          simp only
          cases hs : visitStm fuel b s1 with
          | error f => rfl
          | ok v2 =>
            obtain ⟨v, s2⟩ := v2
            simp only
            cases hr : s2.is_return_ with
            | true => rfl
            | false =>
              simp only [Bool.false_eq_true, if_false]
              rw [← ih p b s2]
              cases countWhile fuel p b s2 with
              | error f => rfl
              | ok r => rfl

theorem countStm_agrees (fuel : Nat) (stm : Stm) (s : Interpreter) :
    (countStm fuel stm s).map (·.1) = visitStm fuel stm s := by
  have other : ∀ (r : Visited),
      Except.map (fun x : (VisitorValue × Interpreter) × Nat => x.1)
        (r.map (fun r => (r, 0))) = r := by
    intro r
    cases r <;> rfl
  cases fuel with
  | zero => cases stm <;> simp only [countStm] <;> exact other _
  | succ fuel =>
    cases stm
    case While p b =>
      simp only [countStm, visitStm]
      exact countWhile_agrees fuel p b s
    all_goals simp only [countStm]
    all_goals exact other _

theorem countStatements_agrees : ∀ (fuel : Nat) (stms : List Stm) (s : Interpreter),
    (countStatements fuel stms s).map (·.1) = visitStatements fuel stms s := by
  intro fuel
  induction fuel with
  | zero => intro stms s; rfl
  | succ fuel ih =>
    intro stms s
    cases stms with
    | nil => rfl
    | cons stm rest =>
      rw [countStatements, visitStatements, ← countStm_agrees fuel stm s]
      cases countStm fuel stm s with
      | error f => rfl
      | ok r =>
        obtain ⟨⟨value, s1⟩, c⟩ := r
        simp only [Except.map]
        by_cases hr : IsReturn stm = true
        · simp [hr]
        · simp only [hr, if_false, Bool.false_eq_true]
          rw [← ih rest s1]
          cases countStatements fuel rest s1 with
          | error f => rfl
          | ok r => rfl

theorem EvaluateCounting_agrees (fuel : Nat) (s : Interpreter) (cp : CheckedProgram) :
    (EvaluateCounting fuel s cp).map (·.1) = Evaluate fuel s cp := by
  cases fuel with
  | zero => rfl
  | succ fuel =>
    simp only [EvaluateCounting, Evaluate, visitProgram, visitFunctionDecl]
    rw [← countStatements_agrees]
    cases countStatements fuel cp.program.main.statements _ with
    | error f => rfl
    | ok r =>
      obtain ⟨⟨value, s1⟩, c⟩ := r
      simp only [Except.map]
      cases value.double_value with
      | error f => rfl
      | ok d => rfl

theorem visitStm_add (fuel k : Nat) (stm : Stm) (s : Interpreter)
    (h : Finished (visitStm fuel stm s)) : visitStm (fuel + k) stm s = visitStm fuel stm s := by
  induction k with
  | zero => rfl
  | succ k ih =>
    have h' : Finished (visitStm (fuel + k) stm s) := by rw [ih]; exact h
    rw [← Nat.add_assoc, (fuelStable (fuel + k)).2.2.1 stm s h', ih]

theorem countdownPredicate_eval (m fuel : Nat) (h : 3 ≤ fuel) :
    visitExp fuel countdownPredicate (countdownState m)
      = .ok (.boolean (decide (0 < m)), countdownState m) := by
  obtain ⟨j, rfl⟩ := Nat.exists_eq_add_of_le h
  have h3 : visitExp 3 countdownPredicate (countdownState m)
      = .ok (.boolean (decide (0 < m)), countdownState m) := by
    simp [countdownPredicate, countdownState, visitExp, Get, List.lookup, evalBinaryOp,
      VisitorValue.double_value, bind, Except.bind, pure, Except.pure]
  rw [visitExp_add 3 j _ _ (finished_of_eq_ok h3), h3]

theorem countdownBlock_eval (m fuel : Nat) (hm : m ≤ 2 ^ 53) (h : 5 ≤ fuel) :
    visitStm fuel countdownBlock (countdownState (m + 1)) = .ok (.null, countdownState m) := by
  obtain ⟨j, rfl⟩ := Nat.exists_eq_add_of_le h
  have h5 : visitStm 5 countdownBlock (countdownState (m + 1))
      = .ok (.null, countdownState m) := by
    simp [countdownBlock, countdownState, visitStm, visitStatements, visitExp, Get, Put, mutate,
      Frame.assign, List.lookup, evalBinaryOp, VisitorValue.double_value, IsReturn, bind,
      Except.bind, pure, Except.pure, roundToDouble_natCast m hm]
  rw [visitStm_add 5 j _ _ (finished_of_eq_ok h5), h5]

theorem countWhile_countdown : ∀ (m fuel : Nat), m ≤ 2 ^ 53 → m + 6 ≤ fuel →
    countWhile fuel countdownPredicate countdownBlock (countdownState m)
      = .ok ((.null, countdownState 0), m) := by
  intro m
  induction m with
  | zero =>
    intro fuel _ h
    obtain ⟨f, rfl⟩ : ∃ f, fuel = f + 1 := ⟨fuel - 1, by omega⟩
    rw [countWhile, countdownPredicate_eval 0 f (by omega)]
    rfl
  | succ m ih =>
    intro fuel hm h
    obtain ⟨f, rfl⟩ : ∃ f, fuel = f + 1 := ⟨fuel - 1, by omega⟩
    rw [countWhile, countdownPredicate_eval (m + 1) f (by omega)]
    simp only [Nat.zero_lt_succ, decide_True, VisitorValue.bool_value]
    rw [countdownBlock_eval m f (by omega) (by omega)]
    simp only [countdownState, Bool.false_eq_true, if_false]
    have := ih f (by omega) (by omega)
    simp only [countdownState] at this
    rw [this]

theorem countdown_counts (n fuel : Nat) (hn : n ≤ 2 ^ 53) (h : n + 12 ≤ fuel)
    (is_return : Bool) :
    (EvaluateCounting fuel (Interpreter.fresh is_return) ⟨countdownProgram n, []⟩).map
      (fun r => (r.1.1, r.2)) = .ok (0, n) := by
  obtain ⟨f, rfl⟩ : ∃ f, fuel = f + 7 := ⟨fuel - 7, by omega⟩
  have hw := countWhile_countdown n (f + 2) hn (by omega)
  simp only [countdownState, countdownPredicate, countdownBlock] at hw
  simp [EvaluateCounting, countStatements, countStm, countdownProgram, Interpreter.fresh,
    visitStm, visitExp, EnterScope, LeaveScope, Put, Get, mutate, Frame.assign, List.lookup,
    IsReturn, hw, VisitorValue.double_value, Except.map, countdownPredicate, countdownBlock]

theorem countdown_evaluates (n fuel : Nat) (hn : n ≤ 2 ^ 53) (h : n + 12 ≤ fuel)
    (is_return : Bool) :
    Evaluate.result fuel (Interpreter.fresh is_return) (countdownProgram n) = .ok 0 := by
  have hc := countdown_counts n fuel hn h is_return
  have ha := EvaluateCounting_agrees fuel (Interpreter.fresh is_return) ⟨countdownProgram n, []⟩
  unfold Evaluate.result
  rw [← ha]
  cases hE : EvaluateCounting fuel (Interpreter.fresh is_return) ⟨countdownProgram n, []⟩ with
  | error f => rw [hE] at hc; cases hc
  | ok r =>
    rw [hE] at hc
    obtain ⟨⟨d, s1⟩, c⟩ := r
    simp only [Except.map, Except.ok.injEq, Prod.mk.injEq] at hc
    simp only [Except.map, hc.1]

/-- The double nearest to `2^54 - 1` is `2^54`: the subtraction `x - 1` leaves
`x = 2^54` unchanged. -/
theorem roundToDouble_stuck :
    roundToDouble ((18014398509481984 : ℚ) - 1) = .ok 18014398509481984 := by
  decide!

theorem countdownPredicate_stuck (fuel : Nat) (h : 3 ≤ fuel) :
    visitExp fuel countdownPredicate (countdownState 18014398509481984)
      = .ok (.boolean true, countdownState 18014398509481984) := by
  rw [countdownPredicate_eval _ fuel h]
  rfl

theorem countdownBlock_stuck (fuel : Nat) (h : 5 ≤ fuel) :
    visitStm fuel countdownBlock (countdownState 18014398509481984)
      = .ok (.null, countdownState 18014398509481984) := by
  obtain ⟨j, rfl⟩ := Nat.exists_eq_add_of_le h
  have h5 : visitStm 5 countdownBlock (countdownState 18014398509481984)
      = .ok (.null, countdownState 18014398509481984) := by
    simp only [countdownBlock, countdownState, visitStm, visitStatements, visitExp, Get, Put,
      mutate, Frame.assign, List.lookup, evalBinaryOp, VisitorValue.double_value, IsReturn, bind,
      Except.bind, pure, Except.pure, Nat.cast_ofNat, roundToDouble_stuck]
    simp [roundToDouble_stuck, Get, mutate, Frame.assign, List.lookup]
  rw [visitStm_add 5 j _ _ (finished_of_eq_ok h5), h5]

/-- From `x = 2^54` the loop `while (x > 0) { x = x - 1; }` does not end: it is
cut off at every amount of fuel. -/
theorem visitWhile_stuck : ∀ (fuel : Nat),
    visitWhile fuel countdownPredicate countdownBlock (countdownState 18014398509481984)
      = .error .outOfFuel := by
  intro fuel
  induction fuel with
  | zero => rfl
  | succ fuel ih =>
    rw [visitWhile]
    rcases Nat.lt_or_ge fuel 5 with hlt | hge
    · have h5 : fuel = 0 ∨ fuel = 1 ∨ fuel = 2 ∨ fuel = 3 ∨ fuel = 4 := by omega
      rcases h5 with h | h | h | h | h <;> subst h <;>
        simp [countdownPredicate, countdownBlock, countdownState, visitStm, visitStatements,
          visitExp, Get, List.lookup, evalBinaryOp, VisitorValue.double_value,
          VisitorValue.bool_value, bind, Except.bind, pure, Except.pure]
    · rw [countdownPredicate_stuck fuel (by omega)]
      simp only [VisitorValue.bool_value]
      rw [countdownBlock_stuck fuel hge]
      simp only [countdownState, Bool.false_eq_true, if_false]
      exact ih

theorem countdown_stuck (fuel : Nat) (is_return : Bool) :
    Evaluate.result fuel (Interpreter.fresh is_return) (countdownProgram 18014398509481984)
      = .error .outOfFuel := by
  rcases Nat.lt_or_ge fuel 7 with hlt | hge
  · have h7 : fuel = 0 ∨ fuel = 1 ∨ fuel = 2 ∨ fuel = 3 ∨ fuel = 4 ∨ fuel = 5 ∨ fuel = 6 := by
      omega
    rcases h7 with h | h | h | h | h | h | h <;> subst h <;>
      simp [Evaluate.result, Evaluate, visitProgram, countdownProgram, Interpreter.fresh,
        visitFunctionDecl, visitStatements, visitStm, visitWhile, visitExp, EnterScope,
        LeaveScope, Put, Get, mutate, Frame.assign, List.lookup, IsReturn, evalBinaryOp,
        VisitorValue.double_value, VisitorValue.bool_value, bind, Except.bind, pure, Except.pure]
  · obtain ⟨f, rfl⟩ : ∃ f, fuel = f + 7 := ⟨fuel - 7, by omega⟩
    have hw := visitWhile_stuck (f + 2)
    simp only [countdownState, Nat.cast_ofNat] at hw
    simp [Evaluate.result, Evaluate, visitProgram, countdownProgram, Interpreter.fresh,
      visitFunctionDecl, visitStatements, visitStm, visitExp, EnterScope, LeaveScope, Put, Get,
      mutate, Frame.assign, List.lookup, IsReturn, hw, VisitorValue.double_value]

/-- C11 (as amended): for every natural number `n` up to `2^53`, evaluating
`main { var x; x = n; while (x > 0) { x = x - 1; } return x; }` terminates (any
fuel from `n + 12` on is enough) and returns 0, and in that run of `Evaluate`
the block of the loop is executed exactly `n` times; the counting evaluation is
`Evaluate` with a counter added: without the count it is `Evaluate`. -/
theorem C11_countdown_returns_zero (n k : Nat) (is_return : Bool) (hn : n ≤ 2 ^ 53) :
    Evaluate.result (n + 12 + k) (Interpreter.fresh is_return) (countdownProgram n) = .ok 0
    ∧ (EvaluateCounting (n + 12 + k) (Interpreter.fresh is_return)
        ⟨countdownProgram n, []⟩).map (fun r => (r.1.1, r.2)) = .ok (0, n)
    ∧ (EvaluateCounting (n + 12 + k) (Interpreter.fresh is_return)
        ⟨countdownProgram n, []⟩).map (·.1)
        = Evaluate (n + 12 + k) (Interpreter.fresh is_return) ⟨countdownProgram n, []⟩ :=
  ⟨countdown_evaluates n _ hn (by omega) is_return,
    countdown_counts n _ hn (by omega) is_return, EvaluateCounting_agrees _ _ _⟩

/-- C11 witness: the example of the specification, `n = 5`, returns 0 after 5
executions of the block. -/
theorem C11_countdown_returns_zero_witness :
    5 ≤ 2 ^ 53
    ∧ Evaluate.result (5 + 12 + 0) (Interpreter.fresh false) (countdownProgram 5) = .ok 0
    ∧ (EvaluateCounting (5 + 12 + 0) (Interpreter.fresh false)
        ⟨countdownProgram 5, []⟩).map (fun r => (r.1.1, r.2)) = .ok (0, 5)
    ∧ (EvaluateCounting (5 + 12 + 0) (Interpreter.fresh false)
        ⟨countdownProgram 5, []⟩).map (·.1)
        = Evaluate (5 + 12 + 0) (Interpreter.fresh false) ⟨countdownProgram 5, []⟩ :=
  ⟨by norm_num, C11_countdown_returns_zero 5 0 false (by norm_num)⟩

/-- C11 (counterexample): `n = 2^54`, a natural number and a double.  The
double nearest to `2^54 - 1` is `2^54`, so `x = x - 1` leaves `x` unchanged, the
loop never ends and no amount of fuel makes `Evaluate` return a number. -/
theorem C11_counterexample :
    IsDouble 18014398509481984
    ∧ roundToDouble ((18014398509481984 : ℚ) - 1) = .ok 18014398509481984
    ∧ ¬ ∃ (fuel : Nat) (d : ℚ),
        Evaluate.result fuel (Interpreter.fresh false) (countdownProgram 18014398509481984)
          = .ok d := by
  refine ⟨by decide!, by decide!, ?_⟩
  rintro ⟨fuel, d, h⟩
  rw [countdown_stuck fuel false] at h
  cases h

/-- The example of the specification: `n = 5` returns 0 after 5 executions of the
block. -/
theorem countdown_five :
    Evaluate.result 17 (Interpreter.fresh false) (countdownProgram 5) = .ok 0
    ∧ (countWhile 11 countdownPredicate countdownBlock (countdownState 5)).map (·.2) = .ok 5 := by
  decide!

/-! ### A call that adds its arguments -/

/-- C12 (as amended): for all doubles `u` and `v` whose double sum is finite,
evaluating `add(a, b) { return a + b; } main() { return add(u, v); }` returns
the double sum of `u` and `v`, that is `u + v` rounded to the nearest double
(any fuel from 10 on is enough): the binding loop leaves `a` bound to `u` and
`b` to `v` in the new frame, and the body evaluated there yields that double,
which is the result of the call and of the program. -/
theorem C12_add_returns_sum (u v d : ℚ) (is_return : Bool) (k : Nat)
    (_hu : IsDouble u) (_hv : IsDouble v) (hd : roundToDouble (u + v) = .ok d) :
    Evaluate.result (10 + k) (Interpreter.fresh is_return) (addProgram u v) = .ok d
    ∧ (bindArguments (3 + k) [.NumLiteral u, .NumLiteral v] 0 [⟨"a", .NUMBER⟩, ⟨"b", .NUMBER⟩]
        ⟨[], EnterScope [[]], is_return⟩).map (·.evaluation_table_)
        = .ok [[("b", .number v), ("a", .number u)], []]
    ∧ (visitExp (3 + k) (.BinaryOp .NUMBER .PLUS (.Identifier "a") (.Identifier "b"))
        ⟨[], [[("b", .number v), ("a", .number u)], []], false⟩).map (·.1)
        = .ok (.number d) := by
  refine ⟨?_, ?_, ?_⟩
  · apply Evaluate_result_add
    simp [Evaluate.result, Evaluate, visitProgram, addProgram, Interpreter.fresh,
      visitFunctionDecl, visitStatements, visitStm, visitExp, bindArguments, insertFunction,
      EnterScope, LeaveScope, Put, Get, List.lookup, evalBinaryOp, VisitorValue.double_value,
      IsReturn, bind, Except.bind, pure, Except.pure, hd]
  · have h : (bindArguments 3 [.NumLiteral u, .NumLiteral v] 0 [⟨"a", .NUMBER⟩, ⟨"b", .NUMBER⟩]
        ⟨[], EnterScope [[]], is_return⟩).map (·.evaluation_table_)
        = .ok [[("b", .number v), ("a", .number u)], []] := by
      simp [bindArguments, visitExp, EnterScope, Put, Get, List.lookup, Except.map]
    rw [bindArguments_add 3 k _ _ _ _ (finished_of_map_eq_ok h)]
    exact h
  · have h : (visitExp 3 (.BinaryOp .NUMBER .PLUS (.Identifier "a") (.Identifier "b"))
        ⟨[], [[("b", .number v), ("a", .number u)], []], false⟩).map (·.1)
        = .ok (.number d) := by
      simp [visitExp, Get, List.lookup, evalBinaryOp, VisitorValue.double_value, bind,
        Except.bind, pure, Except.pure, Except.map, hd]
    rw [visitExp_add 3 k _ _ (finished_of_map_eq_ok h)]
    exact h

/-- C12 witness: the example of the specification, `add(3, 4)`; the sum 7 is a
double and is the result. -/
theorem C12_add_returns_sum_witness :
    IsDouble 3 ∧ IsDouble 4 ∧ roundToDouble ((3 : ℚ) + 4) = .ok 7
    ∧ Evaluate.result (10 + 0) (Interpreter.fresh false) (addProgram 3 4) = .ok 7
    ∧ (bindArguments (3 + 0) [.NumLiteral 3, .NumLiteral 4] 0 [⟨"a", .NUMBER⟩, ⟨"b", .NUMBER⟩]
        ⟨[], EnterScope [[]], false⟩).map (·.evaluation_table_)
        = .ok [[("b", .number 4), ("a", .number 3)], []]
    ∧ (visitExp (3 + 0) (.BinaryOp .NUMBER .PLUS (.Identifier "a") (.Identifier "b"))
        ⟨[], [[("b", .number 4), ("a", .number 3)], []], false⟩).map (·.1)
        = .ok (.number 7) :=
  ⟨by decide!, by decide!, by decide!,
    C12_add_returns_sum 3 4 7 false 0 (by decide!) (by decide!) (by decide!)⟩

/-- C12 (counterexample): `u = 2^53`, `v = 1`.  Both are doubles, their sum
`2^53 + 1` is not, and `add(u, v)` returns the double sum `2^53`, not `u + v`. -/
theorem C12_counterexample :
    IsDouble 9007199254740992 ∧ IsDouble 1
    ∧ Evaluate.result 10 (Interpreter.fresh false) (addProgram 9007199254740992 1)
        = .ok 9007199254740992
    ∧ Evaluate.result 10 (Interpreter.fresh false) (addProgram 9007199254740992 1)
        ≠ .ok ((9007199254740992 : ℚ) + 1) := by
  decide!

/-- The example of the specification: `add(3, 4)` returns 7. -/
theorem add_three_four :
    Evaluate.result 10 (Interpreter.fresh false) (addProgram 3 4) = .ok 7 := by
  decide!

/-! ### Assignment at run time -/

theorem Frame.names_assign {α : Type} (x : String) (v : α) :
    ∀ (f : Frame α), (Frame.assign x v f).map Prod.fst = f.map Prod.fst
  | [] => rfl
  | (k, w) :: rest => by
    by_cases hk : k = x
    · subst hk
      simp [Frame.assign]
    · have h1 : (k == x) = false := by simpa using hk
      simp only [Frame.assign, h1, Bool.false_eq_true, if_false, List.map_cons]
      rw [Frame.names_assign x v rest]

/-- C14 (failing input): executing `var x` while an enclosing frame binds `x`
resets that binding to 0 and creates nothing in the current frame; in
`declareInCalleeProgram`, which the checker accepts without diagnostic, the
callee's `var x` overwrites the caller's `x = 5`, so the program returns 0
instead of 5 (with any fuel from 30 on). -/
theorem C14_declaration_overwrites_enclosing (is_return : Bool) (k : Nat) :
    (visitStm 1 (.VarDecl "x" .NUMBER) ⟨[], [[], [("x", .number 5)]], is_return⟩).map
        (·.2.evaluation_table_) = .ok [[], [("x", .number 0)]]
    ∧ TypeCheck.diagnostics TypeChecker.fresh declareInCalleeProgram = .ok []
    ∧ Evaluate.result (30 + k) (Interpreter.fresh is_return) declareInCalleeProgram = .ok 0 := by
  refine ⟨?_, by decide, ?_⟩
  · cases is_return <;> decide!
  · apply Evaluate_result_add
    cases is_return <;> decide!

/-! ### Declarations in the checker -/

theorem Get_cons_of_ne {α : Type} (x y : String) (v : α) (inner : Frame α)
    (rest : SymbolTable α) (h : y ≠ x) :
    Get (((x, v) :: inner) :: rest) y = Get (inner :: rest) y := by
  have hne : (y == x) = false := by simpa using h
  simp [Get, List.lookup, hne]

/-- C15: for every compile-time table with a scope open (innermost frame `inner`)
and every `VarDecl x : T`: if `x` is bound in a reachable frame, the checker
writes exactly the one diagnostic DuplicateDeclaration and leaves the table as it
is; otherwise it writes no diagnostic, puts `x : T` into the innermost frame,
after which `Get(x)` yields `T` and every other name is looked up as before. -/
theorem C15_var_decl_checked (ft : FunctionTable) (cur x : String) (T : Ty)
    (inner : Frame Ty) (rest : SymbolTable Ty) :
    (∀ w, Get (inner :: rest) x = some w →
      checkStm ft cur (.VarDecl x T) (inner :: rest)
        = .ok (inner :: rest, [.DuplicateDeclaration x]))
    ∧ (Get (inner :: rest) x = none →
      checkStm ft cur (.VarDecl x T) (inner :: rest) = .ok (((x, T) :: inner) :: rest, [])
      ∧ Get (((x, T) :: inner) :: rest) x = some T
      ∧ ∀ y, y ≠ x → Get (((x, T) :: inner) :: rest) y = Get (inner :: rest) y) := by
  refine ⟨fun w hw => ?_, fun hn => ⟨?_, ?_, fun y hy => Get_cons_of_ne x y T inner rest hy⟩⟩
  · simp only [checkStm, hw]
  · simp only [checkStm, hn]
    unfold Put
    rw [hn]
  · simp [Get, List.lookup]

/-- C15 witness: `var x: number` checked where `x` is already a boolean, and
where only `y` is bound. -/
theorem C15_var_decl_checked_witness :
    (Get [[("x", Ty.BOOL)]] "x" = some .BOOL
      ∧ checkStm [] "main" (.VarDecl "x" .NUMBER) [[("x", .BOOL)]]
          = .ok ([[("x", .BOOL)]], [.DuplicateDeclaration "x"]))
    ∧ (Get [[("y", Ty.BOOL)], []] "x" = none
      ∧ checkStm [] "main" (.VarDecl "x" .NUMBER) [[("y", .BOOL)], []]
          = .ok ([[("x", .NUMBER), ("y", .BOOL)], []], [])
      ∧ Get [[("x", Ty.NUMBER), ("y", .BOOL)], []] "x" = some .NUMBER
      ∧ ∀ y, y ≠ "x" →
          Get [[("x", Ty.NUMBER), ("y", .BOOL)], []] y = Get [[("y", Ty.BOOL)], []] y) :=
  ⟨⟨by decide,
      (C15_var_decl_checked [] "main" "x" .NUMBER [("x", .BOOL)] []).1 .BOOL (by decide)⟩,
    ⟨by decide,
      (C15_var_decl_checked [] "main" "x" .NUMBER [("y", .BOOL)] [[]]).2 (by decide)⟩⟩

/-! ### IfThenElse without else -/

/-- C16 (failing input): `main { if (false) { return 1; } return 2; }`, which
the checker accepts without diagnostic, ends in a null dereference (with any
fuel from 30 on): with a false predicate `Visit(IfThenElse*)` calls `Accept` on
the absent else statement. -/
theorem C16_absent_else_is_dereferenced (is_return : Bool) (k : Nat) :
    TypeCheck.diagnostics TypeChecker.fresh ifWithoutElseProgram = .ok []
    ∧ (visitStm 2 (.IfThenElse (.BooleanLiteral false) (.Block []) none)
        ⟨[], [[]], is_return⟩).map (·.1) = .error .nullDeref
    ∧ Evaluate.result (30 + k) (Interpreter.fresh is_return) ifWithoutElseProgram
        = .error .nullDeref := by
  refine ⟨by decide, by cases is_return <;> decide, ?_⟩
  apply Evaluate_result_add_error _ _ _ _ _ _ (by decide)
  cases is_return <;> decide!

/-- With an else branch present, `Visit(IfThenElse*)` evaluates the predicate
once and then is exactly the visit of the chosen branch. -/
theorem ifThenElse_runs_chosen_branch (fuel : Nat) (predicate : Exp) (thenStm els : Stm)
    (s s1 : Interpreter) (b : Bool) (hp : visitExp fuel predicate s = .ok (.boolean b, s1)) :
    visitStm (fuel + 1) (.IfThenElse predicate thenStm (some els)) s
      = if b then visitStm fuel thenStm s1 else visitStm fuel els s1 := by
  cases b <;> simp [visitStm, hp, VisitorValue.bool_value]

/-! ### Scope release -/

theorem boundNames_mutate {α : Type} (x : String) (v : α) :
    ∀ (t : SymbolTable α), boundNames (mutate x v t) = boundNames t
  | [] => rfl
  | g :: t => by
    cases hg : (g.lookup x).isSome with
    | true => simp [mutate, hg, boundNames, Frame.names_assign]
    | false =>
      have ih := boundNames_mutate x v t
      simp only [boundNames] at ih
      simp [mutate, hg, boundNames, ih]

theorem SameBelow.below_refl (t : SymbolTable VisitorValue) : SameBelow t t := ⟨rfl, rfl⟩

theorem SameBelow.below_trans {a b c : SymbolTable VisitorValue} (h1 : SameBelow a b)
    (h2 : SameBelow b c) : SameBelow a c :=
  ⟨h2.1.trans h1.1, h2.2.trans h1.2⟩

theorem SameBelow.of_names {t t' : SymbolTable VisitorValue}
    (h : boundNames t' = boundNames t) : SameBelow t t' := by
  refine ⟨?_, by rw [h]⟩
  have := congrArg List.length h
  simpa [boundNames] using this

theorem SameBelow.below_put (t : SymbolTable VisitorValue) (x : String) (v : VisitorValue) :
    SameBelow t (Put t x v) := by
  unfold Put
  cases hg : Get t x with
  | some w => exact SameBelow.of_names (boundNames_mutate x v t)
  | none =>
    cases t with
    | nil => exact SameBelow.below_refl _
    | cons f fs => exact ⟨rfl, rfl⟩

theorem boundNames_tail {α : Type} (t : SymbolTable α) :
    boundNames t.tail = (boundNames t).tail := by
  cases t <;> rfl

theorem visitExp_frames (fuel : Nat) (ih : FramesKept fuel) (e : Exp) (s : Interpreter)
    (v : VisitorValue) (s' : Interpreter) (h : visitExp (fuel + 1) e s = .ok (v, s')) :
    boundNames s'.evaluation_table_ = boundNames s.evaluation_table_ := by
  obtain ⟨ihE, ihB, _, _, _, ihF⟩ := ih
  cases e with
  | NumLiteral x =>
    simp only [visitExp, Except.ok.injEq, Prod.mk.injEq] at h
    rw [← h.2]
  | BooleanLiteral x =>
    simp only [visitExp, Except.ok.injEq, Prod.mk.injEq] at h
    rw [← h.2]
  | Identifier name =>
    simp only [visitExp] at h
    cases hg : Get s.evaluation_table_ name <;> rw [hg] at h <;>
      simp only [Except.ok.injEq, Prod.mk.injEq] at h <;> rw [← h.2]
  | BinaryOp ty op l r =>
    simp only [visitExp] at h
    cases hl : visitExp fuel l s with
    | error f => rw [hl] at h; cases h
    | ok v1 =>
      obtain ⟨lv, s1⟩ := v1
      rw [hl] at h
      simp only at h
      cases hr : visitExp fuel r s1 with
      | error f => rw [hr] at h; cases h
      | ok v2 =>
        obtain ⟨rv, s2⟩ := v2
        rw [hr] at h
        simp only at h
        cases ho : evalBinaryOp op lv rv with
        | error f => rw [ho] at h; cases h
        | ok w =>
          rw [ho] at h
          simp only [Except.ok.injEq, Prod.mk.injEq] at h
          rw [← h.2]
          exact (ihE r s1 rv s2 hr).trans (ihE l s lv s1 hl)
  | UnaryOp ty op x =>
    simp only [visitExp] at h
    cases hx : visitExp fuel x s with
    | error f => rw [hx] at h; cases h
    | ok v1 =>
      obtain ⟨xv, s1⟩ := v1
      rw [hx] at h
      simp only at h
      cases ho : evalUnaryOp op xv with
      | error f => rw [ho] at h; cases h
      | ok w =>
        rw [ho] at h
        simp only [Except.ok.injEq, Prod.mk.injEq] at h
        rw [← h.2]
        exact ihE x s xv s1 hx
  | Conditional p t f =>
    simp only [visitExp] at h
    cases hp : visitExp fuel p s with
    | error f => rw [hp] at h; cases h
    | ok v1 =>
      obtain ⟨pv, s1⟩ := v1
      rw [hp] at h
      simp only at h
      have h1 := ihE p s pv s1 hp
      cases hb : pv.bool_value with
      | error f => rw [hb] at h; cases h
      | ok b =>
        rw [hb] at h
        cases b with
        | true => exact (ihE t s1 v s' h).trans h1
        | false => exact (ihE f s1 v s' h).trans h1
  | FunctionCall id args =>
    simp only [visitExp] at h
    cases hfn : s.function_table_.lookup id with
    | none => rw [hfn] at h; cases h
    | some fn =>
      rw [hfn] at h
      simp only at h
      cases hb : bindArguments fuel args 0 fn.formals
          { s with evaluation_table_ := EnterScope s.evaluation_table_ } with
      | error f => rw [hb] at h; cases h
      | ok s1 =>
        rw [hb] at h
        simp only at h
        cases hf : visitFunctionDecl fuel fn s1 with
        | error f => rw [hf] at h; cases h
        | ok v2 =>
          obtain ⟨cv, s2⟩ := v2
          rw [hf] at h
          simp only [Except.ok.injEq, Prod.mk.injEq] at h
          rw [← h.2]
          have g1 := ihB _ _ _ _ _ hb
          have g2 := ihF fn s1 cv s2 hf
          have g := (g1.below_trans g2).2
          simp only [LeaveScope]
          rw [boundNames_tail, g]
          rfl

theorem bindArguments_frames (fuel : Nat) (ih : FramesKept fuel) (args : List Exp) (i : Nat)
    (ps : List FunctionParam) (s s' : Interpreter)
    (h : bindArguments (fuel + 1) args i ps s = .ok s') :
    SameBelow s.evaluation_table_ s'.evaluation_table_ := by
  obtain ⟨ihE, ihB, _, _, _, _⟩ := ih
  cases args with
  | nil =>
    simp only [bindArguments, Except.ok.injEq] at h
    rw [← h]; exact SameBelow.below_refl _
  | cons arg rest =>
    simp only [bindArguments] at h
    cases hp : ps.get? i with
    | none => rw [hp] at h; cases h
    | some param =>
      rw [hp] at h
      simp only at h
      cases ha : visitExp fuel arg s with
      | error f => rw [ha] at h; cases h
      | ok v1 =>
        obtain ⟨av, s1⟩ := v1
        rw [ha] at h
        have g1 := SameBelow.of_names (ihE arg s av s1 ha)
        have g2 := SameBelow.below_put s1.evaluation_table_ param.name av
        exact (g1.below_trans g2).below_trans (ihB _ _ _ _ _ h)

theorem visitStm_frames (fuel : Nat) (ih : FramesKept fuel) (stm : Stm) (s : Interpreter)
    (v : VisitorValue) (s' : Interpreter) (h : visitStm (fuel + 1) stm s = .ok (v, s')) :
    SameBelow s.evaluation_table_ s'.evaluation_table_ := by
  obtain ⟨ihE, _, ihS, ihW, ihL, _⟩ := ih
  cases stm with
  | Assignment name rvalue =>
    simp only [visitStm] at h
    cases hr : visitExp fuel rvalue s with
    | error f => rw [hr] at h; cases h
    | ok v1 =>
      obtain ⟨rv, s1⟩ := v1
      rw [hr] at h
      simp only [Except.ok.injEq, Prod.mk.injEq] at h
      rw [← h.2]
      exact (SameBelow.of_names (ihE rvalue s rv s1 hr)).below_trans (SameBelow.below_put _ _ _)
  | Block statements =>
    simp only [visitStm] at h
    exact ihL statements s v s' h
  | IfThenElse p thenStm elseStm =>
    simp only [visitStm] at h
    cases hp : visitExp fuel p s with
    | error f => rw [hp] at h; cases h
    | ok v1 =>
      obtain ⟨pv, s1⟩ := v1
      rw [hp] at h
      simp only at h
      have h1 := SameBelow.of_names (ihE p s pv s1 hp)
      cases hb : pv.bool_value with
      | error f => rw [hb] at h; cases h
      | ok b =>
        rw [hb] at h
        cases b with
        | true => exact h1.below_trans (ihS thenStm s1 v s' h)
        | false =>
          cases elseStm with
          | none => cases h
          | some els => exact h1.below_trans (ihS els s1 v s' h)
  | While p block =>
    simp only [visitStm] at h
    exact ihW p block s v s' h
  | VarDecl id type =>
    simp only [visitStm, Except.ok.injEq, Prod.mk.injEq] at h
    rw [← h.2]; exact SameBelow.below_put _ _ _
  | ReturnStm e =>
    simp only [visitStm] at h
    exact SameBelow.of_names (ihE e s v s' h)

theorem visitWhile_frames (fuel : Nat) (ih : FramesKept fuel) (p : Exp) (block : Stm)
    (s : Interpreter) (v : VisitorValue) (s' : Interpreter)
    (h : visitWhile (fuel + 1) p block s = .ok (v, s')) :
    SameBelow s.evaluation_table_ s'.evaluation_table_ := by
  obtain ⟨ihE, _, ihS, ihW, _, _⟩ := ih
  rw [visitWhile] at h
  cases hp : visitExp fuel p s with
  | error f => rw [hp] at h; cases h
  | ok v1 =>
    obtain ⟨pv, s1⟩ := v1
    rw [hp] at h
    simp only at h
    have h1 := SameBelow.of_names (ihE p s pv s1 hp)
    cases hb : pv.bool_value with
    | error f => rw [hb] at h; cases h
    | ok b =>
      rw [hb] at h
      cases b with
      | false =>
        simp only [Except.ok.injEq, Prod.mk.injEq] at h
        rw [← h.2]; exact h1
      | true =>
        simp only at h
        cases hbody : visitStm fuel block s1 with
        | error f => rw [hbody] at h; cases h
        | ok v2 =>
          obtain ⟨bv, s2⟩ := v2
          rw [hbody] at h
          have h2 := h1.below_trans (ihS block s1 bv s2 hbody)
          cases hr : s2.is_return_ with
          | true =>
            simp only [hr, if_true, Except.ok.injEq, Prod.mk.injEq] at h
            rw [← h.2]; exact h2
          | false =>
            simp only [hr] at h
            exact h2.below_trans (ihW p block s2 v s' h)

theorem visitStatements_frames (fuel : Nat) (ih : FramesKept fuel) (stms : List Stm)
    (s : Interpreter) (v : VisitorValue) (s' : Interpreter)
    (h : visitStatements (fuel + 1) stms s = .ok (v, s')) :
    SameBelow s.evaluation_table_ s'.evaluation_table_ := by
  obtain ⟨_, _, ihS, _, ihL, _⟩ := ih
  cases stms with
  | nil =>
    simp only [visitStatements, Except.ok.injEq, Prod.mk.injEq] at h
    rw [← h.2]; exact SameBelow.below_refl _
  | cons stm rest =>
    simp only [visitStatements] at h
    cases hstm : visitStm fuel stm s with
    | error f => rw [hstm] at h; cases h
    | ok v1 =>
      obtain ⟨sv, s1⟩ := v1
      rw [hstm] at h
      have h1 := ihS stm s sv s1 hstm
      cases hr : IsReturn stm with
      | true =>
        simp only [hr, if_true, Except.ok.injEq, Prod.mk.injEq] at h
        rw [← h.2]; exact h1
      | false =>
        simp only [hr] at h
        exact h1.below_trans (ihL rest s1 v s' h)

theorem framesKept (fuel : Nat) : FramesKept fuel := by
  induction fuel with
  | zero =>
    refine ⟨?_, ?_, ?_, ?_, ?_, ?_⟩
    · intro e s v s' h; simp [visitExp] at h
    · intro args i ps s s' h; simp [bindArguments] at h
    · intro stm s v s' h; simp [visitStm] at h
    · intro p b s v s' h; simp [visitWhile] at h
    · intro stms s v s' h; simp [visitStatements] at h
    · intro n s v s' h; simp [visitFunctionDecl] at h
  | succ fuel ih =>
    refine ⟨visitExp_frames fuel ih, bindArguments_frames fuel ih, visitStm_frames fuel ih,
      visitWhile_frames fuel ih, visitStatements_frames fuel ih, ?_⟩
    intro n s v s' h
    simp only [visitFunctionDecl] at h
    exact ih.2.2.2.2.1 n.statements { s with is_return_ := false } v s' h

theorem lookup_isSome_of_names {α : Type} (y : String) :
    ∀ (f g : Frame α), f.map Prod.fst = g.map Prod.fst →
      (f.lookup y).isSome = (g.lookup y).isSome
  | [], [], _ => rfl
  | [], _ :: _, h => by simp at h
  | _ :: _, [], h => by simp at h
  | (k, a) :: f, (k', b) :: g, h => by
    simp only [List.map_cons, List.cons.injEq] at h
    obtain ⟨hk, hfg⟩ := h
    subst hk
    cases hy : (y == k) with
    | true => simp [List.lookup, hy]
    | false =>
      simp only [List.lookup, hy]
      exact lookup_isSome_of_names y f g hfg

theorem Get_isSome_of_boundNames {α : Type} (y : String) :
    ∀ (t t' : SymbolTable α), boundNames t' = boundNames t →
      (Get t' y).isSome = (Get t y).isSome
  | [], [], _ => rfl
  | [], _ :: _, h => by simp [boundNames] at h
  | _ :: _, [], h => by simp [boundNames] at h
  | f :: t, f' :: t', h => by
    simp only [boundNames, List.map_cons, List.cons.injEq] at h
    obtain ⟨hf, ht⟩ := h
    have h1 := lookup_isSome_of_names y f' f hf
    have h2 := Get_isSome_of_boundNames y t t' ht
    simp only [Get]
    cases hl' : f'.lookup y with
    | some a =>
      rw [hl'] at h1
      cases hl : f.lookup y with
      | some b => rfl
      | none => rw [hl] at h1; simp at h1
    | none =>
      rw [hl'] at h1
      cases hl : f.lookup y with
      | some b => rw [hl] at h1; simp at h1
      | none => exact h2

/-- C17: a FunctionCall whose evaluation completes leaves the runtime table with
as many frames as before, each binding the names it bound before (so a name is
found afterwards exactly when it was found before: nothing bound in the call's
frame stays reachable); and an `Evaluate` that completes leaves the table of the
interpreter object so as well. -/
theorem C17_scope_released :
    (∀ (fuel : Nat) (id : String) (arguments : List Exp) (s : Interpreter)
        (v : VisitorValue) (s' : Interpreter),
        visitExp fuel (.FunctionCall id arguments) s = .ok (v, s') →
        s'.evaluation_table_.length = s.evaluation_table_.length
        ∧ boundNames s'.evaluation_table_ = boundNames s.evaluation_table_
        ∧ ∀ y, (Get s'.evaluation_table_ y).isSome = (Get s.evaluation_table_ y).isSome)
    ∧ (∀ (fuel : Nat) (s : Interpreter) (checked_program : CheckedProgram) (d : ℚ)
        (s' : Interpreter), Evaluate fuel s checked_program = .ok (d, s') →
        s'.evaluation_table_.length = s.evaluation_table_.length
        ∧ boundNames s'.evaluation_table_ = boundNames s.evaluation_table_) := by
  refine ⟨?_, ?_⟩
  · intro fuel id arguments s v s' h
    have hn := (framesKept fuel).1 _ s v s' h
    exact ⟨(SameBelow.of_names hn).1, hn, fun y => Get_isSome_of_boundNames y _ _ hn⟩
  · intro fuel s cp d s' h
    unfold Evaluate visitProgram at h
    cases hv : visitFunctionDecl fuel cp.program.main
        { function_table_ := cp.program.functions.foldl insertFunction s.function_table_,
          evaluation_table_ := EnterScope s.evaluation_table_, is_return_ := s.is_return_ } with
    | error f => rw [hv] at h; cases h
    | ok r =>
      obtain ⟨mv, s1⟩ := r
      rw [hv] at h
      simp only at h
      cases hd : mv.double_value with
      | error f => rw [hd] at h; cases h
      | ok d' =>
        rw [hd] at h
        simp only [Except.ok.injEq, Prod.mk.injEq] at h
        rw [← h.2]
        have g := (framesKept fuel).2.2.2.2.2 _ _ mv s1 hv
        have hn : boundNames (LeaveScope s1.evaluation_table_) = boundNames s.evaluation_table_ := by
          simp only [LeaveScope]
          rw [boundNames_tail, g.2]
          rfl
        exact ⟨(SameBelow.of_names hn).1, hn⟩

/-- C17 witness: `f(1)` called where the caller binds `x`, with a body that
declares `y` and returns at its end, returns before its last statement, or runs
off its end; and an `Evaluate` of `clobberProgram`. -/
theorem C17_scope_released_witness :
    (visitExp 10 (.FunctionCall "f" [.NumLiteral 1])
        (callState [.VarDecl "y" .NUMBER, .ReturnStm (.Identifier "p")])
        = .ok (.number 1, callState [.VarDecl "y" .NUMBER, .ReturnStm (.Identifier "p")])
      ∧ (callState [.VarDecl "y" .NUMBER, .ReturnStm (.Identifier "p")]).evaluation_table_.length
          = (callState [.VarDecl "y" .NUMBER, .ReturnStm (.Identifier "p")]).evaluation_table_.length)
    ∧ (visitExp 10 (.FunctionCall "f" [.NumLiteral 1])
        (callState [.VarDecl "y" .NUMBER, .ReturnStm (.NumLiteral 1), .ReturnStm (.NumLiteral 2)])
        = .ok (.number 1,
            callState [.VarDecl "y" .NUMBER, .ReturnStm (.NumLiteral 1), .ReturnStm (.NumLiteral 2)])
      ∧ ∀ y, (Get (callState [.VarDecl "y" .NUMBER, .ReturnStm (.NumLiteral 1),
            .ReturnStm (.NumLiteral 2)]).evaluation_table_ y).isSome
          = (Get (callState [.VarDecl "y" .NUMBER, .ReturnStm (.NumLiteral 1),
            .ReturnStm (.NumLiteral 2)]).evaluation_table_ y).isSome)
    ∧ (visitExp 10 (.FunctionCall "f" [.NumLiteral 1]) (callState [.VarDecl "y" .NUMBER])
        = .ok (.null, callState [.VarDecl "y" .NUMBER])
      ∧ boundNames (callState [.VarDecl "y" .NUMBER]).evaluation_table_
          = boundNames (callState [.VarDecl "y" .NUMBER]).evaluation_table_)
    ∧ (Evaluate 30 (Interpreter.fresh false) ⟨clobberProgram, []⟩
        = .ok (1, ⟨[("f", ⟨"f", [⟨"n", .NUMBER⟩], .NUMBER, [.ReturnStm (.NumLiteral 0)]⟩)], [],
            false⟩)
      ∧ ([] : SymbolTable VisitorValue).length
          = (Interpreter.fresh false).evaluation_table_.length) :=
  ⟨⟨by rfl, (C17_scope_released.1 10 "f" [.NumLiteral 1] _ _ _ (by rfl)).1⟩,
    ⟨by rfl, (C17_scope_released.1 10 "f" [.NumLiteral 1] _ _ _ (by rfl)).2.2⟩,
    ⟨by rfl, (C17_scope_released.1 10 "f" [.NumLiteral 1] _ _ _ (by rfl)).2.1⟩,
    ⟨by rfl, (C17_scope_released.2 30 (Interpreter.fresh false) ⟨clobberProgram, []⟩ 1 _
      (by rfl)).1⟩⟩

/-! ### Parameters in the checker -/

/-- C18 (failing input): checking `add(a: number, b: number): number
{ return a + b; }` (and a `main` that calls it) reports `a` and `b` as undefined
and their types as not set: the checker never binds the formal parameters. -/
theorem C18_parameters_are_undefined :
    TypeCheck.diagnostics TypeChecker.fresh (addProgram 3 4)
      = .ok [.UndefinedIdentifier "a", .UndefinedIdentifier "b", .TypeNotSet, .TypeNotSet]
    ∧ checkExp (buildFunctionTable [] (addProgram 3 4)) (EnterScope []) (.Identifier "a")
      = .ok (none, [.UndefinedIdentifier "a"]) := by
  decide

/-! ### The two function tables -/

theorem visitProgram_uses_runtimeFunctionTable (fuel : Nat) (n : Program) (s : Interpreter) :
    visitProgram fuel n s
      = visitFunctionDecl fuel n.main { s with function_table_ := runtimeFunctionTable s n } :=
  rfl

/-- C19 (failing input): in `main(): number { return main(); }` the checker
resolves the call to `main` and writes no diagnostic, but the runtime function
table has no entry for `main`, so the call dereferences a null declaration (with
any fuel from 30 on). -/
theorem C19_entry_function_not_in_runtime_table (is_return : Bool) (k : Nat) :
    TypeCheck.diagnostics TypeChecker.fresh selfCallProgram = .ok []
    ∧ (GetFunction (buildFunctionTable [] selfCallProgram) "main").isSome = true
    ∧ ((runtimeFunctionTable (Interpreter.fresh is_return) selfCallProgram).lookup "main").isNone
        = true
    ∧ Evaluate.result (30 + k) (Interpreter.fresh is_return) selfCallProgram
        = .error .nullDeref := by
  refine ⟨by decide, by decide, by cases is_return <;> rfl, ?_⟩
  apply Evaluate_result_add_error _ _ _ _ _ _ (by decide)
  cases is_return <;> decide!

/-! ### Argument binding -/

/-- C20 (failing input): calling `f(a: number)` as `f(1, 2)` makes the binding
loop of `Visit(FunctionCall*)` read `parameters[1]`, past the end of the formals
(with any fuel from 30 on). -/
theorem C20_binding_reads_out_of_bounds (is_return : Bool) (k : Nat) :
    (bindArguments 5 [.NumLiteral 1, .NumLiteral 2] 0 [⟨"a", .NUMBER⟩]
        ⟨[], [[]], is_return⟩).map (·.evaluation_table_) = .error .outOfBounds
    ∧ Evaluate.result (30 + k) (Interpreter.fresh is_return) tooManyArgumentsProgram
        = .error .outOfBounds := by
  refine ⟨?_, ?_⟩
  · cases is_return <;> decide!
  · apply Evaluate_result_add_error _ _ _ _ _ _ (by decide)
    cases is_return <;> decide!

end SimpleInterpreter
